import Mathlib

set_option maxRecDepth 4000

/-!
Verification of the Abelian sandpile implementation (sandpile.py).

The grid is a dense 2D array of integer grain counts (numpy int array in the
source).  We embed it as a list of rows of integers.  Indexing follows numpy
semantics: a negative index wraps once (index -1 denotes the last row or
column), and an index at or beyond the extent is an error (IndexError),
modelled by Option.
-/

structure Grid where
  data : List (List Int)
deriving DecidableEq, Repr

namespace Grid

/-- Height of the grid: number of rows (len(grid)). -/
def h (g : Grid) : Nat := g.data.length

/-- Width of the grid: length of the first row (len(grid[0]) in the source). -/
def w (g : Grid) : Nat := (g.data.head?.map List.length).getD 0

/-- Row at a natural index, defaulting to the empty row out of range. -/
def rowAt (g : Grid) (i : Nat) : List Int := (g.data[i]?).getD []

/-- Well-formedness: every row has the common width (numpy arrays are
rectangular). -/
def wfB (g : Grid) : Bool := g.data.all (fun row => row.length == g.w)

def WF (g : Grid) : Prop := g.wfB = true

/-- Total lookup of a cell by natural coordinates, defaulting to 0. -/
def at0 (g : Grid) (i j : Nat) : Int := ((g.data[i]?).bind (fun row => row[j]?)).getD 0

end Grid

/-- Resolution of a (possibly negative) numpy index against an extent n:
indices in [0, n) stand as given, indices in [-n, 0) wrap once by adding n,
anything else is an IndexError. -/
def resolveIdx (n : Nat) (i : Int) : Option Nat :=
  if 0 ≤ i ∧ i < (n : Int) then some i.toNat
  else if -(n : Int) ≤ i ∧ i < 0 then some (i + n).toNat
  else none

namespace Grid

/-- Reading grid[i, j] with numpy index semantics. -/
def getI (g : Grid) (i j : Int) : Option Int := do
  let r ← resolveIdx g.h i
  let row ← g.data[r]?
  let c ← resolveIdx row.length j
  row[c]?

/-- Writing grid[i, j] = x with numpy index semantics. -/
def setI (g : Grid) (i j : Int) (x : Int) : Option Grid := do
  let r ← resolveIdx g.h i
  let row ← g.data[r]?
  let c ← resolveIdx row.length j
  pure ⟨g.data.set r (row.set c x)⟩

/-- Increment grid[i, j] += d (numpy reads the cell, adds, writes back). -/
def addAtI (g : Grid) (i j : Int) (d : Int) : Option Grid :=
  (g.getI i j).bind (fun v => g.setI i j (v + d))

/-- Total grain count of the grid. -/
def total (g : Grid) : Int := (g.data.map List.sum).sum

/-- Maximum cell value, as computed by np.max over the flattened grid
(only meaningful on nonempty grids, like np.max itself). -/
def maxValue (g : Grid) : Int :=
  match g.data.flatten with
  | [] => 0
  | x :: xs => xs.foldl max x

end Grid

/-- Setting the first and last entry of one row to 0 (the column part of the
border-zeroing statements, restricted to one row). -/
def zeroEnds (row : List Int) : List Int := (row.set 0 0).set (row.length - 1) 0

/-- Border zeroing: grid[0] = grid[-1] = 0 and grid[:, 0] = grid[:, -1] = 0.
The first and last row become all zero and every other row has its first and
last entry zeroed. -/
def zeroBorder (g : Grid) : Grid :=
  ⟨g.data.enum.map (fun p =>
    if p.1 = 0 ∨ p.1 = g.data.length - 1 then List.replicate p.2.length 0
    else zeroEnds p.2)⟩

/-- Decision of the border-zero condition: first and last row all zero, and
the first and last entry of every row zero. -/
def borderZeroB (g : Grid) : Bool :=
  g.data.enum.all (fun p =>
    if p.1 = 0 ∨ p.1 = g.data.length - 1 then p.2.all (fun v => v == 0)
    else decide (p.2.head?.getD 0 = 0) && decide (p.2.getLast?.getD 0 = 0))

def BorderZero (g : Grid) : Prop := borderZeroB g = true

instance (g : Grid) : Decidable (BorderZero g) :=
  inferInstanceAs (Decidable (borderZeroB g = true))

instance (g : Grid) : Decidable g.WF :=
  inferInstanceAs (Decidable (g.wfB = true))

/-- Sum of the cells of one row that lie on the left or right border,
each border cell counted once. -/
def rowBorderSum (row : List Int) : Int :=
  if row.length ≤ 1 then row.sum else row.head?.getD 0 + row.getLast?.getD 0

/-- Sum of all border cells of the grid, each counted once. -/
def borderSum (g : Grid) : Int :=
  (g.data.enum.map (fun p =>
    if p.1 = 0 ∨ p.1 = g.data.length - 1 then p.2.sum else rowBorderSum p.2)).sum

/-- Coordinates of all cells holding at least T grains, in row-major order,
as returned by np.where(grid >= T). -/
def unstableCoords (T : Int) (g : Grid) : List (Int × Int) :=
  (g.data.enum.map (fun p =>
    p.2.enum.filterMap (fun q =>
      if T ≤ q.2 then some ((p.1 : Int), (q.1 : Int)) else none))).flatten

/-- Scatter assignment grid[xs, ys] = vals: sequential writes, so a later
duplicate index overwrites an earlier one, exactly as numpy fancy
assignment resolves duplicates. -/
def scatterSet : Grid → List ((Int × Int) × Int) → Option Grid
  | g, [] => some g
  | g, (p, x) :: rest => (g.setI p.1 p.2 x).bind (fun g1 => scatterSet g1 rest)

/-- Scatter increment grid[xs, ys] += ds.  In the source every such
statement uses pairwise distinct index pairs (np.where yields distinct
cells and each neighbor offset is injective), so sequential accumulation
coincides with the numpy gather-add-scatter semantics on all reachable
calls. -/
def scatterAdd : Grid → List ((Int × Int) × Int) → Option Grid
  | g, [] => some g
  | g, (p, d) :: rest => (g.addAtI p.1 p.2 d).bind (fun g1 => scatterAdd g1 rest)

/-- Body of Sandpile.topple before the border-zeroing statements:
read the listed piles, write back each pile modulo T, then add each pile's
quotient to its four orthogonal neighbors, one neighbor direction at a
time, in the source's statement order. -/
def toppleCore (T : Int) (g : Grid) (coords : List (Int × Int)) : Option Grid := do
  let piles ← coords.mapM (fun p => g.getI p.1 p.2)
  let pcs := coords.zip piles
  let g1 ← scatterSet g (pcs.map (fun pv => (pv.1, pv.2.emod T)))
  let g2 ← scatterAdd g1 (pcs.map (fun pv => ((pv.1.1 - 1, pv.1.2), pv.2.ediv T)))
  let g3 ← scatterAdd g2 (pcs.map (fun pv => ((pv.1.1, pv.1.2 - 1), pv.2.ediv T)))
  let g4 ← scatterAdd g3 (pcs.map (fun pv => ((pv.1.1 + 1, pv.1.2), pv.2.ediv T)))
  let g5 ← scatterAdd g4 (pcs.map (fun pv => ((pv.1.1, pv.1.2 + 1), pv.2.ediv T)))
  pure g5

/-- Sandpile.topple: the toppling body followed by the border zeroing. -/
def topple (T : Int) (g : Grid) (coords : List (Int × Int)) : Option Grid :=
  (toppleCore T g coords).map zeroBorder

/-- Sandpile.topple invoked on a single pile. -/
def topple1 (T : Int) (g : Grid) (x y : Int) : Option Grid := topple T g [(x, y)]

/-- The relaxation loop of Sandpile.run: while np.max(grid) >= T, collect
every cell at or above T with np.where and topple all of them in one call.
The fuel argument bounds the number of passes; the source's while loop has
no such bound, so fuel exhaustion is modelled as none. -/
def relax (T : Int) : Nat → Grid → Option Grid
  | 0, g => if g.maxValue < T then some g else none
  | fuel + 1, g =>
    if g.maxValue < T then some g
    else (topple T g (unstableCoords T g)).bind (relax T fuel)

/-- Test grid.any(): at least one nonzero cell. -/
def gridAny (g : Grid) : Bool := g.data.any (fun row => row.any (fun v => v != 0))

/-- One iteration of the automatic-mode loop body of Sandpile.run: add one
grain at the drawn coordinates (the draw rand_x is bounded by width - 1 but
used as the row index, rand_y by height - 1 as the column index), then run
the relaxation loop if some pile reached T. -/
def driveStep (T : Int) (fuel : Nat) (g : Grid) (rx ry : Int) : Option Grid :=
  (g.addAtI rx ry 1).bind (fun g1 =>
    if T ≤ g1.maxValue then relax T fuel g1 else some g1)

/-- Automatic mode: one driveStep per random draw; the draw list stands for
the max_timesteps successive random samples. -/
def runAuto (T : Int) (fuel : Nat) : Grid → List (Int × Int) → Option Grid
  | g, [] => some g
  | g, d :: ds => (driveStep T fuel g d.1 d.2).bind (fun g1 => runAuto T fuel g1 ds)

/-- Sandpile.run: automatic mode when the grid is all zero, otherwise the
relaxation loop on the given grid. -/
def run (T : Int) (fuel : Nat) (draws : List (Int × Int)) (g : Grid) : Option Grid :=
  if gridAny g then relax T fuel g else runAuto T fuel g draws

/-- Broadcast combination of two extents, as numpy shape broadcasting does
for one axis: equal extents stand, an extent of 1 stretches, anything else
is a ValueError. -/
def bDim (n m : Nat) : Option Nat :=
  if n = m then some n else if n = 1 then some m else if m = 1 then some n else none

/-- Index into an axis of extent n under broadcasting. -/
def bcast (n : Nat) (i : Nat) : Nat := if n = 1 then 0 else i

/-- Elementwise numpy addition of two grids, with 2D shape broadcasting;
none models the ValueError on incompatible shapes. -/
def npAdd (a b : Grid) : Option Grid :=
  match bDim a.h b.h, bDim a.w b.w with
  | some hh, some ww =>
    some ⟨(List.range hh).map (fun i => (List.range ww).map (fun j =>
      a.at0 (bcast a.h i) (bcast a.w j) + b.at0 (bcast b.h i) (bcast b.w j)))⟩
  | _, _ => none

/-- Sandpile.__add__: form the elementwise sum in a fresh Sandpile (whose
threshold is the default 4) and invoke run on it; a ValueError from the sum
is caught, a message printed, and no result produced.  The modelled value is
the state of the temporary result grid after run. -/
def sandAdd (fuel : Nat) (draws : List (Int × Int)) (a b : Grid) : Option Grid :=
  (npAdd a b).bind (run 4 fuel draws)

/-- Rectangularity of a raw value array: np.array builds an integer 2D array
exactly when all rows have equal length. -/
def isRect (vals : List (List Int)) : Bool :=
  vals.all (fun row => row.length == (vals.head?.map List.length).getD 0)

/-- All-zero grid of the given size, np.zeros((height, width)). -/
def zerosGrid (hh ww : Nat) : Grid := ⟨List.replicate hh (List.replicate ww 0)⟩

/-- Sandpile.__init__: with no raw grid, an all-zero grid of the given size
is built, with no validation of the dimensions whatsoever; with a raw value
array, np.array copies it, failing (ValueError or IndexError on an empty
list) unless it is a nonempty rectangle. -/
def sandpileInit (vals : Option (List (List Int))) (height width : Nat) : Option Grid :=
  match vals with
  | none => some (zerosGrid height width)
  | some rows => if rows ≠ [] ∧ isRect rows then some ⟨rows⟩ else none

/-- Quotient a pile at or above the threshold contributes to each neighbor
(zero for a stable pile). -/
def qval (T v : Int) : Int := if T ≤ v then v.ediv T else 0

/-- Value a pile retains after a pass: its remainder when it toppled, its
old value otherwise. -/
def rval (T v : Int) : Int := if T ≤ v then v.emod T else v

/-- Modelled from the spec: value of cell (i, j) after one simultaneous
relaxation pass, before border zeroing.  Every pile at or above T is cut to
its remainder modulo T and each existing orthogonal neighbor of such a pile
receives its quotient; quotients sent outside the grid are dropped (they are
dissipated by the border zeroing in any case). -/
def simNew (T : Int) (g : Grid) (i j : Nat) : Int :=
  rval T (g.at0 i j)
  + (if i + 1 < g.h then qval T (g.at0 (i + 1) j) else 0)
  + (if 1 ≤ i then qval T (g.at0 (i - 1) j) else 0)
  + (if j + 1 < g.w then qval T (g.at0 i (j + 1)) else 0)
  + (if 1 ≤ j then qval T (g.at0 i (j - 1)) else 0)

/-- Modelled from the spec: one simultaneous relaxation pass followed by
border zeroing. -/
def specPass (T : Int) (g : Grid) : Grid :=
  zeroBorder ⟨g.data.enum.map (fun p => p.2.enum.map (fun q => simNew T g p.1 q.1))⟩

/-- Modelled from the spec: relaxation as repeated simultaneous passes until
no pile holds T or more grains, with the same fuel discipline as relax. -/
def relaxSpec (T : Int) : Nat → Grid → Option Grid
  | 0, g => if g.maxValue < T then some g else none
  | fuel + 1, g => if g.maxValue < T then some g else relaxSpec T fuel (specPass T g)

/-- Rendering of the claim that a pass topples the snapshot one coordinate
at a time in snapshot order: sequential single-pile topple calls. -/
def seqTopple (T : Int) : Grid → List (Int × Int) → Option Grid
  | g, [] => some g
  | g, p :: rest => (topple T g [p]).bind (fun g1 => seqTopple T g1 rest)


/-! Basic list facts used throughout. -/

theorem sum_set_int (l : List Int) (n : Nat) (a : Int) (hn : n < l.length) :
    (l.set n a).sum = l.sum - l[n] + a := by
  induction l generalizing n with
  | nil => simp at hn
  | cons x t ih =>
    cases n with
    | zero => simp; ring
    | succ m =>
      have hm : m < t.length := by simpa using hn
      simp [List.set, ih m hm]
      ring

theorem sum_map_add_int {α : Type} (l : List α) (f f2 : α → Int) :
    (l.map (fun x => f x + f2 x)).sum = (l.map f).sum + (l.map f2).sum := by
  induction l with
  | nil => simp
  | cons a t ih => simp [ih]; ring

theorem filterMap_if_eq_filter_map {α β : Type} (l : List α) (p : α → Prop) [DecidablePred p]
    (f : α → β) :
    (l.filterMap fun a => if p a then some (f a) else none)
      = (l.filter (fun a => decide (p a))).map f := by
  induction l with
  | nil => rfl
  | cons a t ih => by_cases hp : p a <;> simp [hp, ih]

theorem zip_self_map {α β : Type} (l : List α) (f : α → β) :
    l.zip (l.map f) = l.map (fun a => (a, f a)) := by
  induction l with
  | nil => rfl
  | cons a t ih => simp [ih]

/-! Facts about index resolution. -/

theorem resolveIdx_lt {n : Nat} {i : Int} {r : Nat} (hr : resolveIdx n i = some r) : r < n := by
  unfold resolveIdx at hr
  split at hr
  · rename_i hcond
    cases hr
    omega
  · split at hr
    · rename_i hcond
      cases hr
      omega
    · cases hr

theorem resolveIdx_natCast {n i : Nat} (hi : i < n) : resolveIdx n (i : Int) = some i := by
  unfold resolveIdx
  have h1 : (0 : Int) ≤ (i : Int) ∧ (i : Int) < (n : Int) := by omega
  simp [h1]

theorem resolveIdx_none_of_ge {n i : Nat} (hi : n ≤ i) : resolveIdx n (i : Int) = none := by
  unfold resolveIdx
  have h1 : ¬ ((0 : Int) ≤ (i : Int) ∧ (i : Int) < (n : Int)) := by omega
  have h2 : ¬ (-(n : Int) ≤ (i : Int) ∧ (i : Int) < 0) := by omega
  rw [if_neg h1, if_neg h2]

/-! Shape of a grid: height together with all row lengths. -/

theorem rowAt_eq_getElem {g : Grid} {i : Nat} (hi : i < g.h) : g.rowAt i = g.data[i] := by
  simp [Grid.rowAt, List.getElem?_eq_getElem hi]

theorem w_eq_rowAt {g : Grid} (hg : 0 < g.h) : g.w = (g.rowAt 0).length := by
  rcases g with ⟨data⟩
  cases data with
  | nil => simp [Grid.h] at hg
  | cons r t => simp [Grid.w, Grid.rowAt]

theorem w_of_shape {g1 g2 : Grid} (hh : g1.h = g2.h)
    (hrow : ∀ k, (g1.rowAt k).length = (g2.rowAt k).length) : g1.w = g2.w := by
  rcases Nat.eq_zero_or_pos g1.h with hz | hp
  · have hz2 : g2.h = 0 := by omega
    rcases g1 with ⟨d1⟩
    rcases g2 with ⟨d2⟩
    have e1 : d1 = [] := List.length_eq_zero.mp hz
    have e2 : d2 = [] := List.length_eq_zero.mp hz2
    subst e1
    subst e2
    rfl
  · rw [w_eq_rowAt hp, w_eq_rowAt (hh ▸ hp), hrow 0]

theorem wf_rowAt {g : Grid} (hwf : g.WF) {i : Nat} (hi : i < g.h) :
    (g.rowAt i).length = g.w := by
  have hmem := (List.all_eq_true.mp hwf) (g.data[i]) (by exact List.getElem_mem hi)
  rw [rowAt_eq_getElem hi]
  simpa using hmem

theorem wf_of_shape {g1 g2 : Grid} (hh : g2.h = g1.h)
    (hrow : ∀ k, (g2.rowAt k).length = (g1.rowAt k).length) (hwf : g1.WF) : g2.WF := by
  have hw : g2.w = g1.w := w_of_shape hh hrow
  unfold Grid.WF Grid.wfB
  rw [List.all_eq_true]
  intro row hrowmem
  rcases List.getElem_of_mem hrowmem with ⟨k, hk, hkeq⟩
  have hkh : k < g2.h := hk
  have : row = g2.rowAt k := by rw [rowAt_eq_getElem hkh, hkeq]
  subst this
  rw [hrow k, hw]
  have : k < g1.h := by omega
  simp [wf_rowAt hwf this]

/-! Reading and writing single cells at natural coordinates. -/

theorem at0_rowAt (g : Grid) (i j : Nat) : g.at0 i j = ((g.rowAt i)[j]?).getD 0 := by
  unfold Grid.at0 Grid.rowAt
  cases hd : g.data[i]? <;> simp [hd]

theorem at0_eq_getElem {g : Grid} {i j : Nat} (hi : i < g.h) (hj : j < (g.rowAt i).length) :
    g.at0 i j = (g.rowAt i)[j] := by
  rw [at0_rowAt, List.getElem?_eq_getElem hj]
  rfl

theorem getI_nat {g : Grid} {i j : Nat} (hi : i < g.h) (hj : j < (g.rowAt i).length) :
    g.getI (i : Int) (j : Int) = some (g.at0 i j) := by
  have hd : g.data[i]? = some (g.rowAt i) := by
    rw [rowAt_eq_getElem hi]
    exact List.getElem?_eq_getElem hi
  simp only [Grid.getI, resolveIdx_natCast hi, Option.bind_eq_bind, Option.some_bind, hd,
    resolveIdx_natCast hj, List.getElem?_eq_getElem hj, at0_eq_getElem hi hj]

theorem setI_nat_spec (g : Grid) (i j : Nat) (x : Int) (hi : i < g.h)
    (hj : j < (g.rowAt i).length) :
    ∃ g2 : Grid, g.setI (i : Int) (j : Int) x = some g2 ∧ g2.h = g.h ∧
      (∀ k, (g2.rowAt k).length = (g.rowAt k).length) ∧
      g2.at0 i j = x ∧
      (∀ i2 j2 : Nat, ¬(i2 = i ∧ j2 = j) → g2.at0 i2 j2 = g.at0 i2 j2) := by
  have hd : g.data[i]? = some (g.rowAt i) := by
    rw [rowAt_eq_getElem hi]
    exact List.getElem?_eq_getElem hi
  have hlen : i < g.data.length := hi
  have hrowi : Grid.rowAt ⟨g.data.set i ((g.rowAt i).set j x)⟩ i = (g.rowAt i).set j x := by
    unfold Grid.rowAt
    rw [List.getElem?_set_self hlen]
    rfl
  have hrowk : ∀ k, k ≠ i → Grid.rowAt ⟨g.data.set i ((g.rowAt i).set j x)⟩ k = g.rowAt k := by
    intro k hk
    unfold Grid.rowAt
    rw [List.getElem?_set_ne (Ne.symm hk)]
  refine ⟨⟨g.data.set i ((g.rowAt i).set j x)⟩, ?_, ?_, ?_, ?_, ?_⟩
  · simp only [Grid.setI, resolveIdx_natCast hi, Option.bind_eq_bind, Option.some_bind, hd,
      resolveIdx_natCast hj]
    rfl
  · simp [Grid.h]
  · intro k
    by_cases hk : k = i
    · subst hk
      rw [hrowi]
      simp
    · rw [hrowk k hk]
  · rw [at0_rowAt, hrowi, List.getElem?_set_self hj]
    rfl
  · intro i2 j2 hne
    by_cases hii : i2 = i
    · subst hii
      have hjj : j2 ≠ j := fun hc => hne ⟨rfl, hc⟩
      rw [at0_rowAt, at0_rowAt, hrowi, List.getElem?_set_ne (Ne.symm hjj)]
    · rw [at0_rowAt, at0_rowAt, hrowk i2 hii]

theorem addAtI_nat_spec (g : Grid) (i j : Nat) (d : Int) (hi : i < g.h)
    (hj : j < (g.rowAt i).length) :
    ∃ g2 : Grid, g.addAtI (i : Int) (j : Int) d = some g2 ∧ g2.h = g.h ∧
      (∀ k, (g2.rowAt k).length = (g.rowAt k).length) ∧
      g2.at0 i j = g.at0 i j + d ∧
      (∀ i2 j2 : Nat, ¬(i2 = i ∧ j2 = j) → g2.at0 i2 j2 = g.at0 i2 j2) := by
  rcases setI_nat_spec g i j (g.at0 i j + d) hi hj with ⟨g2, hset, hh, hrow, hcell, hrest⟩
  exact ⟨g2, by simp [Grid.addAtI, getI_nat hi hj, hset], hh, hrow, hcell, hrest⟩

/-! Facts about zeroEnds and zeroBorder. -/

theorem zeroEnds_length (row : List Int) : (zeroEnds row).length = row.length := by
  simp [zeroEnds]

theorem zeroBorder_h (g : Grid) : (zeroBorder g).h = g.h := by
  simp [zeroBorder, Grid.h]

theorem zeroBorder_rowAt_lt {g : Grid} {k : Nat} (hk : k < g.h) :
    (zeroBorder g).rowAt k =
      if k = 0 ∨ k = g.h - 1 then List.replicate ((g.rowAt k).length) 0
      else zeroEnds (g.rowAt k) := by
  have hd : g.data[k]? = some (g.rowAt k) := by
    rw [rowAt_eq_getElem hk]
    exact List.getElem?_eq_getElem hk
  unfold zeroBorder Grid.rowAt
  rw [List.getElem?_map, List.getElem?_enum, hd]
  rfl

theorem zeroBorder_rowAt_ge {g : Grid} {k : Nat} (hk : g.h ≤ k) :
    (zeroBorder g).rowAt k = [] := by
  have hd : g.data[k]? = none := List.getElem?_eq_none hk
  unfold zeroBorder Grid.rowAt
  rw [List.getElem?_map, List.getElem?_enum, hd]
  rfl

theorem zeroBorder_row_len (g : Grid) (k : Nat) :
    ((zeroBorder g).rowAt k).length = (g.rowAt k).length := by
  by_cases hk : k < g.h
  · rw [zeroBorder_rowAt_lt hk]
    split <;> simp [zeroEnds_length]
  · have hge := Nat.le_of_not_lt hk
    rw [zeroBorder_rowAt_ge hge]
    unfold Grid.rowAt
    rw [List.getElem?_eq_none (by exact hge)]
    rfl

theorem zeroEnds_getElem? (row : List Int) (j : Nat) (hj : j < row.length) :
    (zeroEnds row)[j]? = if j = 0 ∨ j = row.length - 1 then some 0 else some (row[j]) := by
  unfold zeroEnds
  by_cases hlast : j = row.length - 1
  · have hlt : row.length - 1 < (row.set 0 0).length := by simp; omega
    simp [hlast, List.getElem?_set_self hlt]
  · by_cases h0 : j = 0
    · subst h0
      have h0lt : 0 < row.length := hj
      rw [List.getElem?_set_ne (Ne.symm hlast), List.getElem?_set_self h0lt]
      simp
    · rw [List.getElem?_set_ne (Ne.symm hlast), List.getElem?_set_ne (Ne.symm h0),
        List.getElem?_eq_getElem hj]
      simp [h0, hlast]

theorem at0_zeroBorder {g : Grid} {i j : Nat} (hi : i < g.h) (hj : j < (g.rowAt i).length) :
    (zeroBorder g).at0 i j =
      if i = 0 ∨ i = g.h - 1 ∨ j = 0 ∨ j = (g.rowAt i).length - 1 then 0
      else g.at0 i j := by
  rw [at0_rowAt, zeroBorder_rowAt_lt hi]
  by_cases hib : i = 0 ∨ i = g.h - 1
  · have hfull : i = 0 ∨ i = g.h - 1 ∨ j = 0 ∨ j = (g.rowAt i).length - 1 := by tauto
    rw [if_pos hib, if_pos hfull]
    simp [List.getElem?_replicate, hj]
  · rw [if_neg hib, zeroEnds_getElem? _ _ hj]
    by_cases hjb : j = 0 ∨ j = (g.rowAt i).length - 1
    · have : i = 0 ∨ i = g.h - 1 ∨ j = 0 ∨ j = (g.rowAt i).length - 1 := by tauto
      simp [hjb, this]
    · have hcond : ¬ (i = 0 ∨ i = g.h - 1 ∨ j = 0 ∨ j = (g.rowAt i).length - 1) := by tauto
      rw [if_neg hjb, if_neg hcond, at0_eq_getElem hi hj]
      rfl

theorem zeroEnds_head0 (row : List Int) : (zeroEnds row).head?.getD 0 = 0 := by
  cases row with
  | nil => rfl
  | cons x t =>
    rw [List.head?_eq_getElem?, zeroEnds_getElem? (x :: t) 0 (by simp)]
    simp

theorem zeroEnds_last0 (row : List Int) : (zeroEnds row).getLast?.getD 0 = 0 := by
  cases hrow : row with
  | nil => rfl
  | cons x t =>
    rw [List.getLast?_eq_getElem?, zeroEnds_length,
      zeroEnds_getElem? (x :: t) ((x :: t).length - 1) (by simp)]
    simp

theorem borderZeroB_zeroBorder (g : Grid) : borderZeroB (zeroBorder g) = true := by
  unfold borderZeroB
  rw [List.all_eq_true]
  intro p hp
  rw [List.mem_enum_iff_getElem?] at hp
  have hk : p.1 < (zeroBorder g).data.length := by
    by_contra hge
    rw [List.getElem?_eq_none (Nat.le_of_not_lt hge)] at hp
    cases hp
  have hrow : (zeroBorder g).rowAt p.1 = p.2 := by
    unfold Grid.rowAt
    rw [hp]
    rfl
  have hlen : (zeroBorder g).data.length = g.data.length := zeroBorder_h g
  have hkh : p.1 < g.h := by
    have := hk
    rw [hlen] at this
    exact this
  rw [hlen]
  by_cases hbk : p.1 = 0 ∨ p.1 = g.data.length - 1
  · rw [if_pos hbk]
    have : (zeroBorder g).rowAt p.1 = List.replicate ((g.rowAt p.1).length) 0 := by
      rw [zeroBorder_rowAt_lt hkh]
      exact if_pos hbk
    rw [hrow] at this
    rw [this, List.all_eq_true]
    intro v hv
    have := List.eq_of_mem_replicate hv
    simp [this]
  · rw [if_neg hbk]
    have : (zeroBorder g).rowAt p.1 = zeroEnds (g.rowAt p.1) := by
      rw [zeroBorder_rowAt_lt hkh]
      exact if_neg hbk
    rw [hrow] at this
    rw [this]
    simp [zeroEnds_head0, zeroEnds_last0]

/-! Grain totals of border zeroing and single-cell updates. -/

theorem zeroEnds_sum (row : List Int) : (zeroEnds row).sum + rowBorderSum row = row.sum := by
  rcases row with _ | ⟨x, _ | ⟨y, t⟩⟩
  · rfl
  · simp [zeroEnds, rowBorderSum]
  · have hlen2 : ¬ (x :: y :: t).length ≤ 1 := by simp
    have h0 : 0 < (x :: y :: t).length := by simp
    have hlast : (x :: y :: t).length - 1 < (x :: y :: t).length := by simp
    have hs1 : ((x :: y :: t).set 0 0).sum = (x :: y :: t).sum - (x :: y :: t)[0] + 0 :=
      sum_set_int _ 0 0 h0
    have hlastne : (x :: y :: t).length - 1 ≠ 0 := by simp
    have hlast2 : (x :: y :: t).length - 1 < ((x :: y :: t).set 0 0).length := by simpa using hlast
    have hs2 : (zeroEnds (x :: y :: t)).sum =
        ((x :: y :: t).set 0 0).sum - ((x :: y :: t).set 0 0)[(x :: y :: t).length - 1] + 0 := by
      unfold zeroEnds
      exact sum_set_int _ _ 0 hlast2
    have hsame : ((x :: y :: t).set 0 0)[(x :: y :: t).length - 1] =
        (x :: y :: t)[(x :: y :: t).length - 1] := by
      rw [List.getElem_set_ne (by omega)]
    have hbs : rowBorderSum (x :: y :: t) =
        (x :: y :: t)[0] + (x :: y :: t)[(x :: y :: t).length - 1] := by
      unfold rowBorderSum
      rw [if_neg hlen2, List.head?_eq_getElem?, List.getLast?_eq_getElem?,
        List.getElem?_eq_getElem h0, List.getElem?_eq_getElem hlast]
      rfl
    rw [hs2, hsame, hs1, hbs]
    ring

theorem total_eq_enum_sum (g : Grid) : g.total = (g.data.enum.map (fun p => p.2.sum)).sum := by
  unfold Grid.total
  have : g.data.enum.map (fun p => p.2.sum) = (g.data.enum.map Prod.snd).map List.sum := by
    rw [List.map_map]
    rfl
  rw [this, List.enum_map_snd]

theorem total_zeroBorder (g : Grid) : g.total = (zeroBorder g).total + borderSum g := by
  have hzb : (zeroBorder g).total =
      (g.data.enum.map (fun p =>
        if p.1 = 0 ∨ p.1 = g.data.length - 1 then (List.replicate p.2.length (0 : Int)).sum
        else (zeroEnds p.2).sum)).sum := by
    unfold Grid.total zeroBorder
    rw [List.map_map]
    congr 1
    apply List.map_congr_left
    intro p hp
    by_cases hb : p.1 = 0 ∨ p.1 = g.data.length - 1 <;> simp [hb]
  rw [total_eq_enum_sum, hzb]
  unfold borderSum
  rw [← sum_map_add_int]
  apply congrArg
  apply List.map_congr_left
  intro p hp
  by_cases hb : p.1 = 0 ∨ p.1 = g.data.length - 1
  · simp [hb]
  · rw [if_neg hb, if_neg hb]
    exact (zeroEnds_sum p.2).symm

theorem total_setI {g g2 : Grid} {x y : Int} {v : Int} (hset : g.setI x y v = some g2) :
    ∃ old, g.getI x y = some old ∧ g2.total = g.total - old + v := by
  unfold Grid.setI at hset
  cases hr : resolveIdx g.h x with
  | none => rw [hr] at hset; cases hset
  | some r =>
    rw [hr] at hset
    simp only [Option.bind_eq_bind, Option.some_bind] at hset
    have hrlt : r < g.data.length := resolveIdx_lt hr
    have hd : g.data[r]? = some g.data[r] := List.getElem?_eq_getElem hrlt
    rw [hd] at hset
    simp only [Option.some_bind] at hset
    cases hc : resolveIdx (g.data[r].length) y with
    | none => simp [hc] at hset
    | some c =>
      rw [hc] at hset
      have hclt : c < g.data[r].length := resolveIdx_lt hc
      simp only [Option.some_bind, Option.pure_def, Option.some.injEq] at hset
      refine ⟨g.data[r][c], ?_, ?_⟩
      · unfold Grid.getI
        rw [hr]
        simp only [Option.bind_eq_bind, Option.some_bind]
        rw [hd]
        simp only [Option.some_bind]
        rw [hc]
        simp [List.getElem?_eq_getElem hclt]
      · rw [← hset]
        unfold Grid.total
        rw [List.map_set, sum_set_int _ _ _ (by simpa using hrlt),
          sum_set_int _ _ _ hclt]
        have hrlt2 : r < (g.data.map List.sum).length := by simpa using hrlt
        have : (g.data.map List.sum)[r] = (g.data[r]).sum := by
          rw [List.getElem_map]
        rw [this]
        ring

theorem total_addAtI {g g2 : Grid} {x y d : Int} (hadd : g.addAtI x y d = some g2) :
    g2.total = g.total + d := by
  unfold Grid.addAtI at hadd
  cases hv : g.getI x y with
  | none => rw [hv] at hadd; cases hadd
  | some v =>
    rw [hv] at hadd
    simp only [Option.some_bind] at hadd
    rcases total_setI hadd with ⟨old, hold, htot⟩
    rw [hv] at hold
    cases hold
    rw [htot]
    ring

/-! Stable grids pass through relax unchanged. -/

theorem relax_of_stable {T : Int} {g : Grid} (hst : g.maxValue < T) (fuel : Nat) :
    relax T fuel g = some g := by
  cases fuel <;> simp [relax, hst]

/-! Characterization of the np.where coordinate list. -/

theorem mem_unstableCoords {T : Int} {g : Grid} {p : Int × Int} :
    p ∈ unstableCoords T g ↔
      ∃ i j : Nat, p = ((i : Int), (j : Int)) ∧ i < g.h ∧ j < (g.rowAt i).length ∧
        T ≤ g.at0 i j := by
  unfold unstableCoords
  rw [List.mem_flatten]
  constructor
  · rintro ⟨l, hl, hpl⟩
    rw [List.mem_map] at hl
    rcases hl with ⟨q, hq, rfl⟩
    rw [List.mem_enum_iff_getElem?] at hq
    rw [List.mem_filterMap] at hpl
    rcases hpl with ⟨r, hr, hfr⟩
    rw [List.mem_enum_iff_getElem?] at hr
    by_cases hT : T ≤ r.2
    · rw [if_pos hT] at hfr
      cases hfr
      have hq1 : q.1 < g.data.length := by
        by_contra hge
        rw [List.getElem?_eq_none (Nat.le_of_not_lt hge)] at hq
        cases hq
      have hrowq : g.rowAt q.1 = q.2 := by
        unfold Grid.rowAt
        rw [hq]
        rfl
      have hr1 : r.1 < q.2.length := by
        by_contra hge
        rw [List.getElem?_eq_none (Nat.le_of_not_lt hge)] at hr
        cases hr
      refine ⟨q.1, r.1, rfl, hq1, by rw [hrowq]; exact hr1, ?_⟩
      rw [at0_rowAt, hrowq, hr]
      exact hT
    · rw [if_neg hT] at hfr
      cases hfr
  · rintro ⟨i, j, rfl, hi, hj, hT⟩
    have hd : g.data[i]? = some (g.rowAt i) := by
      rw [rowAt_eq_getElem hi]
      exact List.getElem?_eq_getElem hi
    refine ⟨(g.rowAt i).enum.filterMap (fun q =>
      if T ≤ q.2 then some ((i : Int), (q.1 : Int)) else none), ?_, ?_⟩
    · rw [List.mem_map]
      exact ⟨(i, g.rowAt i), by rw [List.mem_enum_iff_getElem?]; exact hd, rfl⟩
    · rw [List.mem_filterMap]
      refine ⟨(j, g.at0 i j), ?_, ?_⟩
      · rw [List.mem_enum_iff_getElem?]
        rw [at0_eq_getElem hi hj]
        exact List.getElem?_eq_getElem hj
      · rw [if_pos hT]

theorem unstableCoords_fst {T : Int} {q : Nat × List Int} {x : Int × Int}
    (hx : x ∈ q.2.enum.filterMap (fun r =>
      if T ≤ r.2 then some ((q.1 : Int), (r.1 : Int)) else none)) : x.1 = (q.1 : Int) := by
  rw [List.mem_filterMap] at hx
  rcases hx with ⟨r, hr, hfr⟩
  by_cases hT : T ≤ r.2
  · rw [if_pos hT] at hfr
    cases hfr
    rfl
  · rw [if_neg hT] at hfr
    cases hfr

theorem nodup_unstableCoords (T : Int) (g : Grid) : (unstableCoords T g).Nodup := by
  unfold unstableCoords
  rw [List.nodup_flatten]
  constructor
  · intro l hl
    rw [List.mem_map] at hl
    rcases hl with ⟨q, hq, rfl⟩
    rw [filterMap_if_eq_filter_map]
    apply List.Nodup.map_on
    · intro a ha b hb hab
      have ha2 := List.mem_of_mem_filter ha
      have hb2 := List.mem_of_mem_filter hb
      rw [List.mem_enum_iff_getElem?] at ha2 hb2
      have h1 : a.1 = b.1 := by
        have := congrArg Prod.snd hab
        simpa using this
      rcases a with ⟨a1, a2⟩
      rcases b with ⟨b1, b2⟩
      simp only at h1
      subst h1
      rw [ha2] at hb2
      cases hb2
      rfl
    · apply List.Nodup.filter
      apply List.Nodup.of_map Prod.fst
      exact List.nodup_enum_map_fst q.2
  · have hnd := List.nodup_enum_map_fst g.data
    unfold List.Nodup at hnd
    rw [List.pairwise_map] at hnd
    rw [List.pairwise_map]
    apply List.Pairwise.imp _ hnd
    intro q q2 hne
    rw [List.disjoint_left]
    intro x hxq hxq2
    have e1 := unstableCoords_fst hxq
    have e2 := unstableCoords_fst hxq2
    rw [e1] at e2
    exact hne (by exact_mod_cast e2)

/-! Border cells of a border-zero grid hold no grains. -/

theorem at0_border_eq_zero {g : Grid} (hwf : g.WF) (hb : BorderZero g) {i j : Nat}
    (hi : i < g.h) (hj : j < g.w)
    (hbord : i = 0 ∨ i = g.h - 1 ∨ j = 0 ∨ j = g.w - 1) : g.at0 i j = 0 := by
  have hall := List.all_eq_true.mp hb
  have hmem : (i, g.rowAt i) ∈ g.data.enum := by
    rw [List.mem_enum_iff_getElem?, rowAt_eq_getElem hi]
    exact List.getElem?_eq_getElem hi
  have hpred := hall _ hmem
  simp only at hpred
  have hjrow : j < (g.rowAt i).length := by
    rw [wf_rowAt hwf hi]
    exact hj
  by_cases hib : i = 0 ∨ i = g.data.length - 1
  · rw [if_pos hib, List.all_eq_true] at hpred
    have hv := hpred ((g.rowAt i)[j]) (List.getElem_mem hjrow)
    rw [at0_eq_getElem hi hjrow]
    simpa using hv
  · rw [if_neg hib] at hpred
    have hj0 : j = 0 ∨ j = g.w - 1 := by
      have : ¬ (i = 0 ∨ i = g.h - 1) := hib
      tauto
    rw [Bool.and_eq_true, decide_eq_true_eq, decide_eq_true_eq] at hpred
    rcases hj0 with rfl | rfl
    · rw [at0_rowAt, ← List.head?_eq_getElem?]
      exact hpred.1
    · rw [at0_rowAt]
      have hlast : (g.rowAt i)[g.w - 1]? = (g.rowAt i).getLast? := by
        rw [List.getLast?_eq_getElem?, wf_rowAt hwf hi]
      rw [hlast]
      exact hpred.2

theorem unstableCoords_interior {T : Int} {g : Grid} (hT : 0 < T) (hwf : g.WF)
    (hb : BorderZero g) {p : Int × Int} (hp : p ∈ unstableCoords T g) :
    ∃ i j : Nat, p = ((i : Int), (j : Int)) ∧ 1 ≤ i ∧ i + 1 < g.h ∧ 1 ≤ j ∧ j + 1 < g.w ∧
      T ≤ g.at0 i j := by
  rcases mem_unstableCoords.mp hp with ⟨i, j, rfl, hi, hj, hTv⟩
  have hjw : j < g.w := by
    rw [← wf_rowAt hwf hi]
    exact hj
  have hnotb : ¬ (i = 0 ∨ i = g.h - 1 ∨ j = 0 ∨ j = g.w - 1) := by
    intro hbord
    have := at0_border_eq_zero hwf hb hi hjw hbord
    omega
  push_neg at hnotb
  exact ⟨i, j, rfl, by omega, by omega, by omega, by omega, hTv⟩

/-! Pointwise description of the scatter operations on distinct in-range
natural targets. -/

theorem mapM_getI_eq {g : Grid} (S : List (Int × Int))
    (hval : ∀ p ∈ S, ∃ i j : Nat, p = ((i : Int), (j : Int)) ∧ i < g.h ∧
      j < (g.rowAt i).length) :
    S.mapM (fun p => g.getI p.1 p.2) =
      some (S.map (fun p => g.at0 p.1.toNat p.2.toNat)) := by
  induction S with
  | nil => rfl
  | cons p rest ih =>
    rcases hval p (by simp) with ⟨i, j, hp, hi, hj⟩
    rw [List.mapM_cons]
    subst hp
    have hval2 : ∀ r ∈ rest, ∃ i2 j2 : Nat, r = ((i2 : Int), (j2 : Int)) ∧ i2 < g.h ∧
        j2 < (g.rowAt i2).length := fun r hr => hval r (by simp [hr])
    rw [ih hval2]
    simp [getI_nat hi hj]

theorem scatterSet_spec (L : List ((Int × Int) × Int)) :
    ∀ g : Grid,
      (∀ q ∈ L, ∃ i j : Nat, q.1 = ((i : Int), (j : Int)) ∧ i < g.h ∧
        j < (g.rowAt i).length) →
      (L.map Prod.fst).Nodup →
      ∃ g2 : Grid, scatterSet g L = some g2 ∧ g2.h = g.h ∧
        (∀ k, (g2.rowAt k).length = (g.rowAt k).length) ∧
        (∀ q ∈ L, g2.at0 q.1.1.toNat q.1.2.toNat = q.2) ∧
        (∀ i j : Nat, ((i : Int), (j : Int)) ∉ L.map Prod.fst →
          g2.at0 i j = g.at0 i j) := by
  induction L with
  | nil =>
    intro g hval hnd
    exact ⟨g, rfl, rfl, fun k => rfl, by simp, fun i j hij => rfl⟩
  | cons q rest ih =>
    intro g hval hnd
    rcases q with ⟨qp, qv⟩
    rcases hval ⟨qp, qv⟩ (by simp) with ⟨i, j, hq1, hi, hj⟩
    simp only at hq1
    subst hq1
    rcases setI_nat_spec g i j qv hi hj with ⟨g1, hset, hh1, hrow1, hcell1, hrest1⟩
    have hval2 : ∀ r ∈ rest, ∃ i2 j2 : Nat, r.1 = ((i2 : Int), (j2 : Int)) ∧ i2 < g1.h ∧
        j2 < (g1.rowAt i2).length := by
      intro r hr
      rcases hval r (by simp [hr]) with ⟨i2, j2, h1, h2, h3⟩
      exact ⟨i2, j2, h1, by rw [hh1]; exact h2, by rw [hrow1 i2]; exact h3⟩
    rw [List.map_cons, List.nodup_cons] at hnd
    rcases ih g1 hval2 hnd.2 with ⟨g2, hsc, hh2, hrow2, hcells2, hrest2⟩
    refine ⟨g2, ?_, hh2.trans hh1, fun k => (hrow2 k).trans (hrow1 k), ?_, ?_⟩
    · simp only [scatterSet, hset, Option.some_bind]
      exact hsc
    · intro r hr
      rcases List.mem_cons.mp hr with rfl | hr2
      · have hnotin : ((i : Int), (j : Int)) ∉ rest.map Prod.fst := hnd.1
        have := hrest2 i j hnotin
        simp only at this ⊢
        simp only [Int.toNat_natCast]
        rw [this]
        exact hcell1
      · exact hcells2 r hr2
    · intro i2 j2 hnotin
      rw [List.map_cons, List.mem_cons] at hnotin
      push_neg at hnotin
      have h1 := hrest2 i2 j2 hnotin.2
      rw [h1]
      apply hrest1
      intro hc
      exact hnotin.1 (by simp [hc.1, hc.2])

theorem scatterAdd_spec (L : List ((Int × Int) × Int)) :
    ∀ g : Grid,
      (∀ q ∈ L, ∃ i j : Nat, q.1 = ((i : Int), (j : Int)) ∧ i < g.h ∧
        j < (g.rowAt i).length) →
      (L.map Prod.fst).Nodup →
      ∃ g2 : Grid, scatterAdd g L = some g2 ∧ g2.h = g.h ∧
        (∀ k, (g2.rowAt k).length = (g.rowAt k).length) ∧
        (∀ q ∈ L, g2.at0 q.1.1.toNat q.1.2.toNat = g.at0 q.1.1.toNat q.1.2.toNat + q.2) ∧
        (∀ i j : Nat, ((i : Int), (j : Int)) ∉ L.map Prod.fst →
          g2.at0 i j = g.at0 i j) := by
  induction L with
  | nil =>
    intro g hval hnd
    exact ⟨g, rfl, rfl, fun k => rfl, by simp, fun i j hij => rfl⟩
  | cons q rest ih =>
    intro g hval hnd
    rcases q with ⟨qp, qv⟩
    rcases hval ⟨qp, qv⟩ (by simp) with ⟨i, j, hq1, hi, hj⟩
    simp only at hq1
    subst hq1
    rcases addAtI_nat_spec g i j qv hi hj with ⟨g1, hadd, hh1, hrow1, hcell1, hrest1⟩
    have hval2 : ∀ r ∈ rest, ∃ i2 j2 : Nat, r.1 = ((i2 : Int), (j2 : Int)) ∧ i2 < g1.h ∧
        j2 < (g1.rowAt i2).length := by
      intro r hr
      rcases hval r (by simp [hr]) with ⟨i2, j2, h1, h2, h3⟩
      exact ⟨i2, j2, h1, by rw [hh1]; exact h2, by rw [hrow1 i2]; exact h3⟩
    rw [List.map_cons, List.nodup_cons] at hnd
    rcases ih g1 hval2 hnd.2 with ⟨g2, hsc, hh2, hrow2, hcells2, hrest2⟩
    refine ⟨g2, ?_, hh2.trans hh1, fun k => (hrow2 k).trans (hrow1 k), ?_, ?_⟩
    · simp only [scatterAdd, hadd, Option.some_bind]
      exact hsc
    · intro r hr
      rcases List.mem_cons.mp hr with rfl | hr2
      · have hnotin : ((i : Int), (j : Int)) ∉ rest.map Prod.fst := hnd.1
        have := hrest2 i j hnotin
        simp only at this ⊢
        simp only [Int.toNat_natCast]
        rw [this]
        exact hcell1
      · rcases hval r (by simp [hr2]) with ⟨i2, j2, hr1, hi2, hj2⟩
        have hne : ((i2 : Int), (j2 : Int)) ≠ ((i : Int), (j : Int)) := by
          intro hc
          have hmem2 : r.1 ∈ rest.map Prod.fst := List.mem_map_of_mem Prod.fst hr2
          rw [hr1, hc] at hmem2
          exact hnd.1 hmem2
        have hg1 : g1.at0 i2 j2 = g.at0 i2 j2 := by
          apply hrest1
          intro hc
          exact hne (by simp [hc.1, hc.2])
        have hcr := hcells2 r hr2
        rw [hr1] at hcr ⊢
        simp only [Int.toNat_natCast] at hcr ⊢
        rw [hcr, hg1]
    · intro i2 j2 hnotin
      rw [List.map_cons, List.mem_cons] at hnotin
      push_neg at hnotin
      have h1 := hrest2 i2 j2 hnotin.2
      rw [h1]
      apply hrest1
      intro hc
      exact hnotin.1 (by simp [hc.1, hc.2])

/-! Extensionality for grids and pointwise description of the spec pass. -/

theorem grid_ext {g1 g2 : Grid} (hh : g1.h = g2.h)
    (hrow : ∀ k, (g1.rowAt k).length = (g2.rowAt k).length)
    (hcell : ∀ i j : Nat, i < g1.h → j < (g1.rowAt i).length → g1.at0 i j = g2.at0 i j) :
    g1 = g2 := by
  rcases g1 with ⟨d1⟩
  rcases g2 with ⟨d2⟩
  congr 1
  apply List.ext_getElem (by exact hh)
  intro i h1 h2
  have hr1 : Grid.rowAt ⟨d1⟩ i = d1[i] := rowAt_eq_getElem h1
  have hr2 : Grid.rowAt ⟨d2⟩ i = d2[i] := rowAt_eq_getElem h2
  apply List.ext_getElem
  · have hlen := hrow i
    rw [hr1, hr2] at hlen
    exact hlen
  · intro j hj1 hj2
    have hc := hcell i j h1 (by rw [hr1]; exact hj1)
    have ha1 : Grid.at0 ⟨d1⟩ i j = d1[i][j] := by
      unfold Grid.at0
      rw [List.getElem?_eq_getElem h1]
      simp [List.getElem?_eq_getElem hj1]
    have ha2 : Grid.at0 ⟨d2⟩ i j = d2[i][j] := by
      unfold Grid.at0
      rw [List.getElem?_eq_getElem h2]
      simp [List.getElem?_eq_getElem hj2]
    rw [ha1, ha2] at hc
    exact hc

theorem specInner_rowAt (T : Int) (g : Grid) {k : Nat} (hk : k < g.h) :
    (Grid.mk (g.data.enum.map (fun p => p.2.enum.map (fun q => simNew T g p.1 q.1)))).rowAt k
      = (g.rowAt k).enum.map (fun q => simNew T g k q.1) := by
  have hd : g.data[k]? = some (g.rowAt k) := by
    rw [rowAt_eq_getElem hk]
    exact List.getElem?_eq_getElem hk
  unfold Grid.rowAt
  rw [List.getElem?_map, List.getElem?_enum, hd]
  rfl

theorem specInner_rowAt_ge (T : Int) (g : Grid) {k : Nat} (hk : g.h ≤ k) :
    (Grid.mk (g.data.enum.map (fun p => p.2.enum.map (fun q => simNew T g p.1 q.1)))).rowAt k
      = [] := by
  have hd : g.data[k]? = none := List.getElem?_eq_none hk
  unfold Grid.rowAt
  rw [List.getElem?_map, List.getElem?_enum, hd]
  rfl

theorem specInner_h (T : Int) (g : Grid) :
    (Grid.mk (g.data.enum.map (fun p => p.2.enum.map (fun q => simNew T g p.1 q.1)))).h
      = g.h := by
  simp [Grid.h]

theorem specInner_row_len (T : Int) (g : Grid) (k : Nat) :
    ((Grid.mk (g.data.enum.map (fun p =>
        p.2.enum.map (fun q => simNew T g p.1 q.1)))).rowAt k).length
      = (g.rowAt k).length := by
  by_cases hk : k < g.h
  · rw [specInner_rowAt T g hk]
    simp
  · have hge := Nat.le_of_not_lt hk
    rw [specInner_rowAt_ge T g hge]
    unfold Grid.rowAt
    rw [List.getElem?_eq_none (by exact hge)]
    rfl

theorem specInner_at0 (T : Int) (g : Grid) {k j : Nat} (hk : k < g.h)
    (hj : j < (g.rowAt k).length) :
    (Grid.mk (g.data.enum.map (fun p =>
        p.2.enum.map (fun q => simNew T g p.1 q.1)))).at0 k j = simNew T g k j := by
  rw [at0_rowAt, specInner_rowAt T g hk, List.getElem?_map, List.getElem?_enum,
    List.getElem?_eq_getElem hj]
  rfl

theorem specPass_h (T : Int) (g : Grid) : (specPass T g).h = g.h := by
  unfold specPass
  rw [zeroBorder_h]
  exact specInner_h T g

theorem specPass_row_len (T : Int) (g : Grid) (k : Nat) :
    ((specPass T g).rowAt k).length = (g.rowAt k).length := by
  unfold specPass
  rw [zeroBorder_row_len]
  exact specInner_row_len T g k

/-! The vectorized topple on the np.where snapshot of a border-zero grid
computes exactly one simultaneous relaxation pass. -/

theorem topple_eq_specPass (T : Int) (g : Grid) (hT : 0 < T) (hwf : g.WF)
    (hb : BorderZero g) :
    topple T g (unstableCoords T g) = some (specPass T g) := by
  have hSmem : ∀ a b : Nat, (((a : Int), (b : Int)) ∈ unstableCoords T g) ↔
      (a < g.h ∧ b < g.w ∧ T ≤ g.at0 a b) := by
    intro a b
    constructor
    · intro hmem
      rcases mem_unstableCoords.mp hmem with ⟨i, j, heq, hi, hj, hTv⟩
      have hai : a = i ∧ b = j := by
        rw [Prod.mk.injEq] at heq
        exact ⟨by exact_mod_cast heq.1, by exact_mod_cast heq.2⟩
      rcases hai with ⟨rfl, rfl⟩
      exact ⟨hi, by rw [← wf_rowAt hwf hi]; exact hj, hTv⟩
    · rintro ⟨ha, hbw, hTv⟩
      exact mem_unstableCoords.mpr ⟨a, b, rfl, ha, by rw [wf_rowAt hwf ha]; exact hbw, hTv⟩
  have hint : ∀ p ∈ unstableCoords T g, ∃ a b : Nat, p = ((a : Int), (b : Int)) ∧
      1 ≤ a ∧ a + 1 < g.h ∧ 1 ≤ b ∧ b + 1 < g.w ∧ T ≤ g.at0 a b :=
    fun p hp => unstableCoords_interior hT hwf hb hp
  have hnodupS := nodup_unstableCoords T g
  have hmap : (unstableCoords T g).mapM (fun p => g.getI p.1 p.2) =
      some ((unstableCoords T g).map (fun p => g.at0 p.1.toNat p.2.toNat)) := by
    apply mapM_getI_eq
    intro p hp
    rcases hint p hp with ⟨a, b, hpe, h1, h2, h3, h4, h5⟩
    refine ⟨a, b, hpe, by omega, ?_⟩
    rw [wf_rowAt hwf (by omega)]
    omega
  have hcore : toppleCore T g (unstableCoords T g) =
      (scatterSet g ((unstableCoords T g).map (fun p =>
          (p, (g.at0 p.1.toNat p.2.toNat).emod T)))).bind (fun g1 =>
        (scatterAdd g1 ((unstableCoords T g).map (fun p =>
            ((p.1 - 1, p.2), (g.at0 p.1.toNat p.2.toNat).ediv T)))).bind (fun g2 =>
          (scatterAdd g2 ((unstableCoords T g).map (fun p =>
              ((p.1, p.2 - 1), (g.at0 p.1.toNat p.2.toNat).ediv T)))).bind (fun g3 =>
            (scatterAdd g3 ((unstableCoords T g).map (fun p =>
                ((p.1 + 1, p.2), (g.at0 p.1.toNat p.2.toNat).ediv T)))).bind (fun g4 =>
              (scatterAdd g4 ((unstableCoords T g).map (fun p =>
                  ((p.1, p.2 + 1), (g.at0 p.1.toNat p.2.toNat).ediv T)))).bind
                (fun g5 => some g5))))) := by
    unfold toppleCore
    rw [hmap]
    simp only [Option.bind_eq_bind, Option.some_bind, zip_self_map, List.map_map]
    rfl
  -- validity of the five scatter lists against g
  have hval1 : ∀ q ∈ (unstableCoords T g).map (fun p =>
      (p, (g.at0 p.1.toNat p.2.toNat).emod T)),
      ∃ a b : Nat, q.1 = ((a : Int), (b : Int)) ∧ a < g.h ∧ b < (g.rowAt a).length := by
    intro q hq
    rcases List.mem_map.mp hq with ⟨p, hp, rfl⟩
    rcases hint p hp with ⟨a, b, hpe, h1, h2, h3, h4, h5⟩
    exact ⟨a, b, hpe, by omega, by rw [wf_rowAt hwf (by omega)]; omega⟩
  have hval2 : ∀ q ∈ (unstableCoords T g).map (fun p =>
      ((p.1 - 1, p.2), (g.at0 p.1.toNat p.2.toNat).ediv T)),
      ∃ a b : Nat, q.1 = ((a : Int), (b : Int)) ∧ a < g.h ∧ b < (g.rowAt a).length := by
    intro q hq
    rcases List.mem_map.mp hq with ⟨p, hp, rfl⟩
    rcases hint p hp with ⟨a, b, hpe, h1, h2, h3, h4, h5⟩
    refine ⟨a - 1, b, ?_, by omega, by rw [wf_rowAt hwf (by omega)]; omega⟩
    rw [hpe]
    refine Prod.ext ?_ rfl
    show (a : Int) - 1 = ((a - 1 : Nat) : Int)
    omega
  have hval3 : ∀ q ∈ (unstableCoords T g).map (fun p =>
      ((p.1, p.2 - 1), (g.at0 p.1.toNat p.2.toNat).ediv T)),
      ∃ a b : Nat, q.1 = ((a : Int), (b : Int)) ∧ a < g.h ∧ b < (g.rowAt a).length := by
    intro q hq
    rcases List.mem_map.mp hq with ⟨p, hp, rfl⟩
    rcases hint p hp with ⟨a, b, hpe, h1, h2, h3, h4, h5⟩
    refine ⟨a, b - 1, ?_, by omega, by rw [wf_rowAt hwf (by omega)]; omega⟩
    rw [hpe]
    refine Prod.ext rfl ?_
    show (b : Int) - 1 = ((b - 1 : Nat) : Int)
    omega
  have hval4 : ∀ q ∈ (unstableCoords T g).map (fun p =>
      ((p.1 + 1, p.2), (g.at0 p.1.toNat p.2.toNat).ediv T)),
      ∃ a b : Nat, q.1 = ((a : Int), (b : Int)) ∧ a < g.h ∧ b < (g.rowAt a).length := by
    intro q hq
    rcases List.mem_map.mp hq with ⟨p, hp, rfl⟩
    rcases hint p hp with ⟨a, b, hpe, h1, h2, h3, h4, h5⟩
    refine ⟨a + 1, b, ?_, by omega, by rw [wf_rowAt hwf (by omega)]; omega⟩
    rw [hpe]
    refine Prod.ext ?_ rfl
    show (a : Int) + 1 = ((a + 1 : Nat) : Int)
    omega
  have hval5 : ∀ q ∈ (unstableCoords T g).map (fun p =>
      ((p.1, p.2 + 1), (g.at0 p.1.toNat p.2.toNat).ediv T)),
      ∃ a b : Nat, q.1 = ((a : Int), (b : Int)) ∧ a < g.h ∧ b < (g.rowAt a).length := by
    intro q hq
    rcases List.mem_map.mp hq with ⟨p, hp, rfl⟩
    rcases hint p hp with ⟨a, b, hpe, h1, h2, h3, h4, h5⟩
    refine ⟨a, b + 1, ?_, by omega, by rw [wf_rowAt hwf (by omega)]; omega⟩
    rw [hpe]
    refine Prod.ext rfl ?_
    show (b : Int) + 1 = ((b + 1 : Nat) : Int)
    omega
  -- the target lists carry pairwise distinct targets
  have hfst1 : ((unstableCoords T g).map (fun p =>
      (p, (g.at0 p.1.toNat p.2.toNat).emod T))).map Prod.fst = unstableCoords T g := by
    rw [List.map_map]
    exact List.map_id' _
  have hfst2 : ((unstableCoords T g).map (fun p =>
      ((p.1 - 1, p.2), (g.at0 p.1.toNat p.2.toNat).ediv T))).map Prod.fst
      = (unstableCoords T g).map (fun p => (p.1 - 1, p.2)) := by
    rw [List.map_map]
    rfl
  have hfst3 : ((unstableCoords T g).map (fun p =>
      ((p.1, p.2 - 1), (g.at0 p.1.toNat p.2.toNat).ediv T))).map Prod.fst
      = (unstableCoords T g).map (fun p => (p.1, p.2 - 1)) := by
    rw [List.map_map]
    rfl
  have hfst4 : ((unstableCoords T g).map (fun p =>
      ((p.1 + 1, p.2), (g.at0 p.1.toNat p.2.toNat).ediv T))).map Prod.fst
      = (unstableCoords T g).map (fun p => (p.1 + 1, p.2)) := by
    rw [List.map_map]
    rfl
  have hfst5 : ((unstableCoords T g).map (fun p =>
      ((p.1, p.2 + 1), (g.at0 p.1.toNat p.2.toNat).ediv T))).map Prod.fst
      = (unstableCoords T g).map (fun p => (p.1, p.2 + 1)) := by
    rw [List.map_map]
    rfl
  have hnd1 : (((unstableCoords T g).map (fun p =>
      (p, (g.at0 p.1.toNat p.2.toNat).emod T))).map Prod.fst).Nodup := by
    rw [hfst1]
    exact hnodupS
  have hnd2 : (((unstableCoords T g).map (fun p =>
      ((p.1 - 1, p.2), (g.at0 p.1.toNat p.2.toNat).ediv T))).map Prod.fst).Nodup := by
    rw [hfst2]
    refine List.Nodup.map ?_ hnodupS
    intro p q hpq
    rw [Prod.mk.injEq] at hpq
    exact Prod.ext (by omega) hpq.2
  have hnd3 : (((unstableCoords T g).map (fun p =>
      ((p.1, p.2 - 1), (g.at0 p.1.toNat p.2.toNat).ediv T))).map Prod.fst).Nodup := by
    rw [hfst3]
    refine List.Nodup.map ?_ hnodupS
    intro p q hpq
    rw [Prod.mk.injEq] at hpq
    exact Prod.ext hpq.1 (by omega)
  have hnd4 : (((unstableCoords T g).map (fun p =>
      ((p.1 + 1, p.2), (g.at0 p.1.toNat p.2.toNat).ediv T))).map Prod.fst).Nodup := by
    rw [hfst4]
    refine List.Nodup.map ?_ hnodupS
    intro p q hpq
    rw [Prod.mk.injEq] at hpq
    exact Prod.ext (by omega) hpq.2
  have hnd5 : (((unstableCoords T g).map (fun p =>
      ((p.1, p.2 + 1), (g.at0 p.1.toNat p.2.toNat).ediv T))).map Prod.fst).Nodup := by
    rw [hfst5]
    refine List.Nodup.map ?_ hnodupS
    intro p q hpq
    rw [Prod.mk.injEq] at hpq
    exact Prod.ext hpq.1 (by omega)
  obtain ⟨g1, hsc1, hh1, hlen1, hcells1, hrest1⟩ := scatterSet_spec _ g hval1 hnd1
  have hval2g : ∀ q ∈ (unstableCoords T g).map (fun p =>
      ((p.1 - 1, p.2), (g.at0 p.1.toNat p.2.toNat).ediv T)),
      ∃ a b : Nat, q.1 = ((a : Int), (b : Int)) ∧ a < g1.h ∧ b < (g1.rowAt a).length := by
    intro q hq
    rcases hval2 q hq with ⟨a, b, h1, h2, h3⟩
    exact ⟨a, b, h1, by rw [hh1]; exact h2, by rw [hlen1]; exact h3⟩
  obtain ⟨g2, hsc2, hh2, hlen2, hcells2, hrest2⟩ := scatterAdd_spec _ g1 hval2g hnd2
  have hval3g : ∀ q ∈ (unstableCoords T g).map (fun p =>
      ((p.1, p.2 - 1), (g.at0 p.1.toNat p.2.toNat).ediv T)),
      ∃ a b : Nat, q.1 = ((a : Int), (b : Int)) ∧ a < g2.h ∧ b < (g2.rowAt a).length := by
    intro q hq
    rcases hval3 q hq with ⟨a, b, h1, h2, h3⟩
    exact ⟨a, b, h1, by rw [hh2, hh1]; exact h2, by rw [hlen2, hlen1]; exact h3⟩
  obtain ⟨g3, hsc3, hh3, hlen3, hcells3, hrest3⟩ := scatterAdd_spec _ g2 hval3g hnd3
  have hval4g : ∀ q ∈ (unstableCoords T g).map (fun p =>
      ((p.1 + 1, p.2), (g.at0 p.1.toNat p.2.toNat).ediv T)),
      ∃ a b : Nat, q.1 = ((a : Int), (b : Int)) ∧ a < g3.h ∧ b < (g3.rowAt a).length := by
    intro q hq
    rcases hval4 q hq with ⟨a, b, h1, h2, h3⟩
    exact ⟨a, b, h1, by rw [hh3, hh2, hh1]; exact h2, by rw [hlen3, hlen2, hlen1]; exact h3⟩
  obtain ⟨g4, hsc4, hh4, hlen4, hcells4, hrest4⟩ := scatterAdd_spec _ g3 hval4g hnd4
  have hval5g : ∀ q ∈ (unstableCoords T g).map (fun p =>
      ((p.1, p.2 + 1), (g.at0 p.1.toNat p.2.toNat).ediv T)),
      ∃ a b : Nat, q.1 = ((a : Int), (b : Int)) ∧ a < g4.h ∧ b < (g4.rowAt a).length := by
    intro q hq
    rcases hval5 q hq with ⟨a, b, h1, h2, h3⟩
    exact ⟨a, b, h1, by rw [hh4, hh3, hh2, hh1]; exact h2,
      by rw [hlen4, hlen3, hlen2, hlen1]; exact h3⟩
  obtain ⟨g5, hsc5, hh5, hlen5, hcells5, hrest5⟩ := scatterAdd_spec _ g4 hval5g hnd5
  have hcoresome : toppleCore T g (unstableCoords T g) = some g5 := by
    rw [hcore, hsc1]
    simp only [Option.some_bind]
    rw [hsc2]
    simp only [Option.some_bind]
    rw [hsc3]
    simp only [Option.some_bind]
    rw [hsc4]
    simp only [Option.some_bind]
    rw [hsc5]
    rfl
  -- pointwise values after each phase
  have A1 : ∀ a b : Nat, g1.at0 a b =
      if ((a : Int), (b : Int)) ∈ unstableCoords T g then (g.at0 a b).emod T
      else g.at0 a b := by
    intro a b
    by_cases hmem : ((a : Int), (b : Int)) ∈ unstableCoords T g
    · rw [if_pos hmem]
      have hq : ((((a : Int)), ((b : Int))), (g.at0 a b).emod T) ∈
          (unstableCoords T g).map (fun p => (p, (g.at0 p.1.toNat p.2.toNat).emod T)) := by
        rw [List.mem_map]
        refine ⟨((a : Int), (b : Int)), hmem, ?_⟩
        simp
      have hv := hcells1 _ hq
      simpa using hv
    · rw [if_neg hmem]
      apply hrest1
      rw [hfst1]
      exact hmem
  have A2 : ∀ a b : Nat, g2.at0 a b = g1.at0 a b +
      (if (((a + 1 : Nat) : Int), (b : Int)) ∈ unstableCoords T g
        then (g.at0 (a + 1) b).ediv T else 0) := by
    intro a b
    by_cases hmem : (((a + 1 : Nat) : Int), (b : Int)) ∈ unstableCoords T g
    · rw [if_pos hmem]
      have hq : ((((a : Int)), ((b : Int))), (g.at0 (a + 1) b).ediv T) ∈
          (unstableCoords T g).map (fun p =>
            ((p.1 - 1, p.2), (g.at0 p.1.toNat p.2.toNat).ediv T)) := by
        rw [List.mem_map]
        refine ⟨(((a + 1 : Nat) : Int), (b : Int)), hmem, ?_⟩
        have he : ((a + 1 : Nat) : Int) - 1 = (a : Int) := by push_cast; ring
        simp [he]
      have hv := hcells2 _ hq
      simpa using hv
    · rw [if_neg hmem, add_zero]
      apply hrest2
      rw [hfst2]
      intro hc
      rcases List.mem_map.mp hc with ⟨p, hp, hpe⟩
      rcases hint p hp with ⟨a2, b2, rfl, i1, i2, i3, i4, i5⟩
      have he1 : (a2 : Int) - 1 = (a : Int) := by
        have := congrArg Prod.fst hpe
        simpa using this
      have he2 : (b2 : Int) = (b : Int) := by
        have := congrArg Prod.snd hpe
        simpa using this
      have ha2 : a2 = a + 1 := by omega
      have hb2 : b2 = b := by omega
      rw [ha2, hb2] at hp
      exact hmem hp
  have A3 : ∀ a b : Nat, g3.at0 a b = g2.at0 a b +
      (if ((a : Int), ((b + 1 : Nat) : Int)) ∈ unstableCoords T g
        then (g.at0 a (b + 1)).ediv T else 0) := by
    intro a b
    by_cases hmem : ((a : Int), ((b + 1 : Nat) : Int)) ∈ unstableCoords T g
    · rw [if_pos hmem]
      have hq : ((((a : Int)), ((b : Int))), (g.at0 a (b + 1)).ediv T) ∈
          (unstableCoords T g).map (fun p =>
            ((p.1, p.2 - 1), (g.at0 p.1.toNat p.2.toNat).ediv T)) := by
        rw [List.mem_map]
        refine ⟨((a : Int), ((b + 1 : Nat) : Int)), hmem, ?_⟩
        have he : ((b + 1 : Nat) : Int) - 1 = (b : Int) := by push_cast; ring
        simp [he]
      have hv := hcells3 _ hq
      simpa using hv
    · rw [if_neg hmem, add_zero]
      apply hrest3
      rw [hfst3]
      intro hc
      rcases List.mem_map.mp hc with ⟨p, hp, hpe⟩
      rcases hint p hp with ⟨a2, b2, rfl, i1, i2, i3, i4, i5⟩
      have he1 : (a2 : Int) = (a : Int) := by
        have := congrArg Prod.fst hpe
        simpa using this
      have he2 : (b2 : Int) - 1 = (b : Int) := by
        have := congrArg Prod.snd hpe
        simpa using this
      have ha2 : a2 = a := by omega
      have hb2 : b2 = b + 1 := by omega
      rw [ha2, hb2] at hp
      exact hmem hp
  have A4 : ∀ a b : Nat, g4.at0 a b = g3.at0 a b +
      (if 1 ≤ a ∧ (((a - 1 : Nat) : Int), (b : Int)) ∈ unstableCoords T g
        then (g.at0 (a - 1) b).ediv T else 0) := by
    intro a b
    by_cases hmem : 1 ≤ a ∧ (((a - 1 : Nat) : Int), (b : Int)) ∈ unstableCoords T g
    · rw [if_pos hmem]
      have hq : ((((a : Int)), ((b : Int))), (g.at0 (a - 1) b).ediv T) ∈
          (unstableCoords T g).map (fun p =>
            ((p.1 + 1, p.2), (g.at0 p.1.toNat p.2.toNat).ediv T)) := by
        rw [List.mem_map]
        refine ⟨(((a - 1 : Nat) : Int), (b : Int)), hmem.2, ?_⟩
        have he : ((a - 1 : Nat) : Int) + 1 = (a : Int) := by
          have := hmem.1
          omega
        simp [he]
      have hv := hcells4 _ hq
      simpa using hv
    · rw [if_neg hmem, add_zero]
      apply hrest4
      rw [hfst4]
      intro hc
      rcases List.mem_map.mp hc with ⟨p, hp, hpe⟩
      rcases hint p hp with ⟨a2, b2, rfl, i1, i2, i3, i4, i5⟩
      have he1 : (a2 : Int) + 1 = (a : Int) := by
        have := congrArg Prod.fst hpe
        simpa using this
      have he2 : (b2 : Int) = (b : Int) := by
        have := congrArg Prod.snd hpe
        simpa using this
      apply hmem
      have ha1 : 1 ≤ a := by omega
      have ha2 : a2 = a - 1 := by omega
      have hb2 : b2 = b := by omega
      rw [ha2, hb2] at hp
      exact ⟨ha1, hp⟩
  have A5 : ∀ a b : Nat, g5.at0 a b = g4.at0 a b +
      (if 1 ≤ b ∧ ((a : Int), ((b - 1 : Nat) : Int)) ∈ unstableCoords T g
        then (g.at0 a (b - 1)).ediv T else 0) := by
    intro a b
    by_cases hmem : 1 ≤ b ∧ ((a : Int), ((b - 1 : Nat) : Int)) ∈ unstableCoords T g
    · rw [if_pos hmem]
      have hq : ((((a : Int)), ((b : Int))), (g.at0 a (b - 1)).ediv T) ∈
          (unstableCoords T g).map (fun p =>
            ((p.1, p.2 + 1), (g.at0 p.1.toNat p.2.toNat).ediv T)) := by
        rw [List.mem_map]
        refine ⟨((a : Int), ((b - 1 : Nat) : Int)), hmem.2, ?_⟩
        have he : ((b - 1 : Nat) : Int) + 1 = (b : Int) := by
          have := hmem.1
          omega
        simp [he]
      have hv := hcells5 _ hq
      simpa using hv
    · rw [if_neg hmem, add_zero]
      apply hrest5
      rw [hfst5]
      intro hc
      rcases List.mem_map.mp hc with ⟨p, hp, hpe⟩
      rcases hint p hp with ⟨a2, b2, rfl, i1, i2, i3, i4, i5⟩
      have he1 : (a2 : Int) = (a : Int) := by
        have := congrArg Prod.fst hpe
        simpa using this
      have he2 : (b2 : Int) + 1 = (b : Int) := by
        have := congrArg Prod.snd hpe
        simpa using this
      apply hmem
      have hb1 : 1 ≤ b := by omega
      have ha2 : a2 = a := by omega
      have hb2 : b2 = b - 1 := by omega
      rw [ha2, hb2] at hp
      exact ⟨hb1, hp⟩
  have Afinal : ∀ a b : Nat, a < g.h → b < g.w → g5.at0 a b = simNew T g a b := by
    intro a b ha hbw
    rw [A5, A4, A3, A2, A1]
    have t0 : (if ((a : Int), (b : Int)) ∈ unstableCoords T g then (g.at0 a b).emod T
        else g.at0 a b) = rval T (g.at0 a b) := by
      simp only [hSmem]
      unfold rval
      by_cases hTv : T ≤ g.at0 a b
      · rw [if_pos ⟨ha, hbw, hTv⟩, if_pos hTv]
      · rw [if_neg (by tauto), if_neg hTv]
    have t2 : (if (((a + 1 : Nat) : Int), (b : Int)) ∈ unstableCoords T g
        then (g.at0 (a + 1) b).ediv T else 0)
        = (if a + 1 < g.h then qval T (g.at0 (a + 1) b) else 0) := by
      simp only [hSmem]
      unfold qval
      by_cases hh : a + 1 < g.h
      · by_cases hTv : T ≤ g.at0 (a + 1) b
        · rw [if_pos ⟨hh, hbw, hTv⟩, if_pos hh, if_pos hTv]
        · rw [if_neg (by tauto), if_pos hh, if_neg hTv]
      · rw [if_neg (by tauto), if_neg hh]
    have t3 : (if ((a : Int), ((b + 1 : Nat) : Int)) ∈ unstableCoords T g
        then (g.at0 a (b + 1)).ediv T else 0)
        = (if b + 1 < g.w then qval T (g.at0 a (b + 1)) else 0) := by
      simp only [hSmem]
      unfold qval
      by_cases hh : b + 1 < g.w
      · by_cases hTv : T ≤ g.at0 a (b + 1)
        · rw [if_pos ⟨ha, hh, hTv⟩, if_pos hh, if_pos hTv]
        · rw [if_neg (by tauto), if_pos hh, if_neg hTv]
      · rw [if_neg (by tauto), if_neg hh]
    have t4 : (if 1 ≤ a ∧ (((a - 1 : Nat) : Int), (b : Int)) ∈ unstableCoords T g
        then (g.at0 (a - 1) b).ediv T else 0)
        = (if 1 ≤ a then qval T (g.at0 (a - 1) b) else 0) := by
      simp only [hSmem]
      unfold qval
      by_cases hh : 1 ≤ a
      · by_cases hTv : T ≤ g.at0 (a - 1) b
        · rw [if_pos ⟨hh, by omega, hbw, hTv⟩, if_pos hh, if_pos hTv]
        · rw [if_neg (by tauto), if_pos hh, if_neg hTv]
      · rw [if_neg (by tauto), if_neg hh]
    have t5 : (if 1 ≤ b ∧ ((a : Int), ((b - 1 : Nat) : Int)) ∈ unstableCoords T g
        then (g.at0 a (b - 1)).ediv T else 0)
        = (if 1 ≤ b then qval T (g.at0 a (b - 1)) else 0) := by
      simp only [hSmem]
      unfold qval
      by_cases hh : 1 ≤ b
      · by_cases hTv : T ≤ g.at0 a (b - 1)
        · rw [if_pos ⟨hh, ha, by omega, hTv⟩, if_pos hh, if_pos hTv]
        · rw [if_neg (by tauto), if_pos hh, if_neg hTv]
      · rw [if_neg (by tauto), if_neg hh]
    rw [t0, t2, t3, t4, t5]
    unfold simNew
    ring
  have hI : g5 = Grid.mk (g.data.enum.map (fun p =>
      p.2.enum.map (fun q => simNew T g p.1 q.1))) := by
    apply grid_ext
    · rw [hh5, hh4, hh3, hh2, hh1, specInner_h]
    · intro k
      rw [hlen5, hlen4, hlen3, hlen2, hlen1, specInner_row_len]
    · intro a b ha hbl
      have ha2 : a < g.h := by
        rw [← hh1, ← hh2, ← hh3, ← hh4, ← hh5]
        exact ha
      have hbl2 : b < (g.rowAt a).length := by
        rw [← hlen1, ← hlen2, ← hlen3, ← hlen4, ← hlen5]
        exact hbl
      have hbw : b < g.w := by
        rw [← wf_rowAt hwf ha2]
        exact hbl2
      rw [Afinal a b ha2 hbw, specInner_at0 T g ha2 hbl2]
  unfold topple specPass
  rw [hcoresome, hI]
  rfl

/-! Relaxation agrees with the simultaneous-pass description, pass by pass. -/

theorem specPass_wf {T : Int} {g : Grid} (hwf : g.WF) : (specPass T g).WF :=
  wf_of_shape (specPass_h T g) (specPass_row_len T g) hwf

theorem specPass_borderZero (T : Int) (g : Grid) : BorderZero (specPass T g) :=
  borderZeroB_zeroBorder _

theorem topple_borderZero {T : Int} {g g2 : Grid} {coords : List (Int × Int)}
    (ht : topple T g coords = some g2) : BorderZero g2 := by
  unfold topple at ht
  cases hc : toppleCore T g coords with
  | none => rw [hc] at ht; cases ht
  | some m =>
    rw [hc] at ht
    simp only [Option.map_some'] at ht
    cases ht
    exact borderZeroB_zeroBorder m

theorem relax_eq_relaxSpec (T : Int) (hT : 0 < T) :
    ∀ (fuel : Nat) (g : Grid), g.WF → BorderZero g → relax T fuel g = relaxSpec T fuel g := by
  intro fuel
  induction fuel with
  | zero => intro g hwf hb; rfl
  | succ n ih =>
    intro g hwf hb
    by_cases hst : g.maxValue < T
    · simp [relax, relaxSpec, hst]
    · simp only [relax, relaxSpec, if_neg hst]
      rw [topple_eq_specPass T g hT hwf hb]
      simp only [Option.some_bind]
      exact ih (specPass T g) (specPass_wf hwf) (specPass_borderZero T g)

theorem relax_borderZero {T : Int} :
    ∀ {fuel : Nat} {g g2 : Grid}, (BorderZero g ∨ T ≤ g.maxValue) →
      relax T fuel g = some g2 → BorderZero g2 := by
  intro fuel
  induction fuel with
  | zero =>
    intro g g2 hpre hrel
    unfold relax at hrel
    split at hrel
    · rename_i hst
      cases hrel
      rcases hpre with hb | hun
      · exact hb
      · omega
    · cases hrel
  | succ n ih =>
    intro g g2 hpre hrel
    unfold relax at hrel
    split at hrel
    · rename_i hst
      cases hrel
      rcases hpre with hb | hun
      · exact hb
      · omega
    · cases ht : topple T g (unstableCoords T g) with
      | none => rw [ht] at hrel; cases hrel
      | some m =>
        rw [ht] at hrel
        simp only [Option.some_bind] at hrel
        exact ih (Or.inl (topple_borderZero ht)) hrel

/-! Evaluation of a single-pile topple as a chain of cell updates. -/

theorem resolveIdx_neg_one {n : Nat} (hn : 1 ≤ n) : resolveIdx n (-1) = some (n - 1) := by
  unfold resolveIdx
  have h1 : ¬ ((0 : Int) ≤ -1 ∧ (-1 : Int) < (n : Int)) := by omega
  have h2 : -(n : Int) ≤ -1 ∧ (-1 : Int) < 0 := by omega
  rw [if_neg h1, if_pos h2]
  congr 1
  omega

theorem toppleCore_single_eq (T : Int) (g : Grid) (x y : Int) :
    toppleCore T g [(x, y)] =
      (g.getI x y).bind (fun v =>
        (g.setI x y (v.emod T)).bind (fun m1 =>
          (m1.addAtI (x - 1) y (v.ediv T)).bind (fun m2 =>
            (m2.addAtI x (y - 1) (v.ediv T)).bind (fun m3 =>
              (m3.addAtI (x + 1) y (v.ediv T)).bind (fun m4 =>
                m4.addAtI x (y + 1) (v.ediv T)))))) := by
  unfold toppleCore
  cases hv : g.getI x y with
  | none =>
    rw [List.mapM_cons, hv]
    simp
  | some v =>
    simp only [List.mapM_cons, List.mapM_nil, hv, Option.bind_eq_bind, Option.some_bind,
      Option.pure_def, List.zip_cons_cons, List.zip_nil_right, List.map_cons, List.map_nil,
      scatterSet, scatterAdd]
    cases hs : g.setI x y (v.emod T) with
    | none => simp [hs]
    | some m1 =>
      simp only [hs, Option.some_bind]
      cases h2 : m1.addAtI (x - 1) y (v.ediv T) with
      | none => simp [h2]
      | some m2 =>
        simp only [h2, Option.some_bind]
        cases h3 : m2.addAtI x (y - 1) (v.ediv T) with
        | none => simp [h3]
        | some m3 =>
          simp only [h3, Option.some_bind]
          cases h4 : m3.addAtI (x + 1) y (v.ediv T) with
          | none => simp [h4]
          | some m4 =>
            simp only [h4, Option.some_bind]
            cases h5 : m4.addAtI x (y + 1) (v.ediv T) with
            | none => simp [h5]
            | some m5 => simp [h5]

theorem toppleCore_single_total {g m : Grid} {x y : Int}
    (hm : toppleCore 4 g [(x, y)] = some m) : m.total = g.total := by
  rw [toppleCore_single_eq] at hm
  cases hv : g.getI x y with
  | none => rw [hv] at hm; cases hm
  | some v =>
    rw [hv] at hm
    simp only [Option.some_bind] at hm
    cases hs : g.setI x y (v.emod 4) with
    | none => rw [hs] at hm; cases hm
    | some m1 =>
      rw [hs] at hm
      simp only [Option.some_bind] at hm
      rcases total_setI hs with ⟨old, hold, ht1⟩
      rw [hv] at hold
      cases hold
      cases h2 : m1.addAtI (x - 1) y (v.ediv 4) with
      | none => rw [h2] at hm; cases hm
      | some m2 =>
        rw [h2] at hm
        simp only [Option.some_bind] at hm
        have ht2 := total_addAtI h2
        cases h3 : m2.addAtI x (y - 1) (v.ediv 4) with
        | none => rw [h3] at hm; cases hm
        | some m3 =>
          rw [h3] at hm
          simp only [Option.some_bind] at hm
          have ht3 := total_addAtI h3
          cases h4 : m3.addAtI (x + 1) y (v.ediv 4) with
          | none => rw [h4] at hm; cases hm
          | some m4 =>
            rw [h4] at hm
            simp only [Option.some_bind] at hm
            have ht4 := total_addAtI h4
            have ht5 := total_addAtI hm
            have hdm : 4 * (v.ediv 4) + v.emod 4 = v := Int.ediv_add_emod v 4
            rw [ht5, ht4, ht3, ht2, ht1]
            omega

/-! Success and failure of single-cell updates by index resolution. -/

theorem getI_some_of_res {g : Grid} {x y : Int} {r c : Nat}
    (hr : resolveIdx g.h x = some r) (hc : resolveIdx (g.rowAt r).length y = some c) :
    ∃ v, g.getI x y = some v := by
  have hrl : r < g.h := resolveIdx_lt hr
  have hd : g.data[r]? = some (g.rowAt r) := by
    rw [rowAt_eq_getElem hrl]
    exact List.getElem?_eq_getElem hrl
  have hcl : c < (g.rowAt r).length := resolveIdx_lt hc
  refine ⟨(g.rowAt r)[c], ?_⟩
  unfold Grid.getI
  rw [hr]
  simp only [Option.bind_eq_bind, Option.some_bind]
  rw [hd]
  simp only [Option.some_bind]
  rw [hc]
  exact List.getElem?_eq_getElem hcl

theorem setI_some_of_res {g : Grid} {x y v : Int} {r c : Nat}
    (hr : resolveIdx g.h x = some r) (hc : resolveIdx (g.rowAt r).length y = some c) :
    ∃ g2 : Grid, g.setI x y v = some g2 ∧ g2.h = g.h ∧
      (∀ k, (g2.rowAt k).length = (g.rowAt k).length) := by
  have hrl : r < g.h := resolveIdx_lt hr
  have hd : g.data[r]? = some (g.rowAt r) := by
    rw [rowAt_eq_getElem hrl]
    exact List.getElem?_eq_getElem hrl
  have hlen : r < g.data.length := hrl
  refine ⟨⟨g.data.set r ((g.rowAt r).set c v)⟩, ?_, by simp [Grid.h], ?_⟩
  · unfold Grid.setI
    rw [hr]
    simp only [Option.bind_eq_bind, Option.some_bind]
    rw [hd]
    simp only [Option.some_bind]
    rw [hc]
    rfl
  · intro k
    by_cases hk : k = r
    · subst hk
      unfold Grid.rowAt
      rw [List.getElem?_set_self hlen]
      simp [hd]
    · unfold Grid.rowAt
      rw [List.getElem?_set_ne (Ne.symm hk)]

theorem addAtI_some_of_res {g : Grid} {x y d : Int} {r c : Nat}
    (hr : resolveIdx g.h x = some r) (hc : resolveIdx (g.rowAt r).length y = some c) :
    ∃ g2 : Grid, g.addAtI x y d = some g2 ∧ g2.h = g.h ∧
      (∀ k, (g2.rowAt k).length = (g.rowAt k).length) := by
  rcases getI_some_of_res hr hc with ⟨v, hv⟩
  rcases setI_some_of_res (v := v + d) hr hc with ⟨g2, hs, hh, hrow⟩
  refine ⟨g2, ?_, hh, hrow⟩
  unfold Grid.addAtI
  rw [hv]
  simpa using hs

theorem addAtI_none_row {g : Grid} {x y d : Int} (hx : resolveIdx g.h x = none) :
    g.addAtI x y d = none := by
  unfold Grid.addAtI Grid.getI
  rw [hx]
  rfl

theorem addAtI_none_col {g : Grid} {x y d : Int} {r : Nat}
    (hx : resolveIdx g.h x = some r) (hy : resolveIdx (g.rowAt r).length y = none) :
    g.addAtI x y d = none := by
  have hrl : r < g.h := resolveIdx_lt hx
  have hd : g.data[r]? = some (g.rowAt r) := by
    rw [rowAt_eq_getElem hrl]
    exact List.getElem?_eq_getElem hrl
  unfold Grid.addAtI Grid.getI
  rw [hx]
  simp only [Option.bind_eq_bind, Option.some_bind]
  rw [hd]
  simp only [Option.some_bind]
  rw [hy]
  rfl

/-! Bounds behavior of a single-pile topple. -/

theorem topple1_cases (T : Int) (g : Grid) (hwf : g.WF) (r c : Nat)
    (hr : r < g.h) (hc : c < g.w) :
    (r < g.h - 1 ∧ c < g.w - 1 → (topple1 T g (r : Int) (c : Int)).isSome) ∧
    ((r = g.h - 1 ∨ c = g.w - 1) → topple1 T g (r : Int) (c : Int) = none) := by
  have hrr : resolveIdx g.h (r : Int) = some r := resolveIdx_natCast hr
  have hlenr : ∀ k, k < g.h → (g.rowAt k).length = g.w := fun k hk => wf_rowAt hwf hk
  have hcc : resolveIdx (g.rowAt r).length (c : Int) = some c := by
    rw [hlenr r hr]
    exact resolveIdx_natCast hc
  obtain ⟨v, hv⟩ := getI_some_of_res hrr hcc
  obtain ⟨m1, hs1, hh1, hrow1⟩ := setI_some_of_res (v := v.emod T) hrr hcc
  have hup : ∃ r2, resolveIdx m1.h ((r : Int) - 1) = some r2 ∧ r2 < g.h := by
    rw [hh1]
    by_cases h1 : 1 ≤ r
    · have he : ((r : Int) - 1) = ((r - 1 : Nat) : Int) := by omega
      rw [he, resolveIdx_natCast (show r - 1 < g.h by omega)]
      exact ⟨r - 1, rfl, by omega⟩
    · have hr0 : r = 0 := by omega
      subst hr0
      have he : ((0 : Nat) : Int) - 1 = (-1 : Int) := by simp
      rw [he, resolveIdx_neg_one (show 1 ≤ g.h by omega)]
      exact ⟨g.h - 1, rfl, by omega⟩
  obtain ⟨r2, hres2, hr2⟩ := hup
  have hcc2 : resolveIdx (m1.rowAt r2).length (c : Int) = some c := by
    rw [hrow1 r2, hlenr r2 hr2]
    exact resolveIdx_natCast hc
  obtain ⟨m2, hs2, hh2, hrow2⟩ := addAtI_some_of_res (d := v.ediv T) hres2 hcc2
  have hres3 : resolveIdx m2.h (r : Int) = some r := by
    rw [hh2, hh1]
    exact hrr
  have hleft : ∃ c2, resolveIdx (m2.rowAt r).length ((c : Int) - 1) = some c2 := by
    rw [hrow2 r, hrow1 r, hlenr r hr]
    by_cases h1 : 1 ≤ c
    · have he : ((c : Int) - 1) = ((c - 1 : Nat) : Int) := by omega
      rw [he, resolveIdx_natCast (show c - 1 < g.w by omega)]
      exact ⟨c - 1, rfl⟩
    · have hc0 : c = 0 := by omega
      subst hc0
      have he : ((0 : Nat) : Int) - 1 = (-1 : Int) := by simp
      rw [he, resolveIdx_neg_one (show 1 ≤ g.w by omega)]
      exact ⟨g.w - 1, rfl⟩
  obtain ⟨c2, hres3c⟩ := hleft
  obtain ⟨m3, hs3, hh3, hrow3⟩ := addAtI_some_of_res (d := v.ediv T) hres3 hres3c
  constructor
  · rintro ⟨hrlt, hclt⟩
    have hres4 : resolveIdx m3.h ((r : Int) + 1) = some (r + 1) := by
      rw [hh3, hh2, hh1]
      have he : ((r : Int) + 1) = ((r + 1 : Nat) : Int) := by omega
      rw [he]
      exact resolveIdx_natCast (by omega)
    have hcc4 : resolveIdx (m3.rowAt (r + 1)).length (c : Int) = some c := by
      rw [hrow3 (r + 1), hrow2 (r + 1), hrow1 (r + 1), hlenr (r + 1) (by omega)]
      exact resolveIdx_natCast hc
    obtain ⟨m4, hs4, hh4, hrow4⟩ := addAtI_some_of_res (d := v.ediv T) hres4 hcc4
    have hres5 : resolveIdx m4.h (r : Int) = some r := by
      rw [hh4, hh3, hh2, hh1]
      exact hrr
    have hcc5 : resolveIdx (m4.rowAt r).length ((c : Int) + 1) = some (c + 1) := by
      rw [hrow4 r, hrow3 r, hrow2 r, hrow1 r, hlenr r hr]
      have he : ((c : Int) + 1) = ((c + 1 : Nat) : Int) := by omega
      rw [he]
      exact resolveIdx_natCast (by omega)
    obtain ⟨m5, hs5, hh5, hrow5⟩ := addAtI_some_of_res (d := v.ediv T) hres5 hcc5
    unfold topple1 topple
    rw [toppleCore_single_eq, hv]
    simp only [Option.some_bind]
    rw [hs1]
    simp only [Option.some_bind]
    rw [hs2]
    simp only [Option.some_bind]
    rw [hs3]
    simp only [Option.some_bind]
    rw [hs4]
    simp only [Option.some_bind]
    rw [hs5]
    simp
  · intro hcase
    unfold topple1 topple
    rw [toppleCore_single_eq, hv]
    simp only [Option.some_bind]
    rw [hs1]
    simp only [Option.some_bind]
    rw [hs2]
    simp only [Option.some_bind]
    rw [hs3]
    simp only [Option.some_bind]
    by_cases hrowcase : r = g.h - 1
    · have h4 : m3.addAtI ((r : Int) + 1) (c : Int) (v.ediv T) = none := by
        apply addAtI_none_row
        rw [hh3, hh2, hh1]
        have he : ((r : Int) + 1) = ((r + 1 : Nat) : Int) := by omega
        rw [he]
        exact resolveIdx_none_of_ge (by omega)
      rw [h4]
      rfl
    · have hcw : c = g.w - 1 := by tauto
      have hrlt : r + 1 < g.h := by omega
      have hres4 : resolveIdx m3.h ((r : Int) + 1) = some (r + 1) := by
        rw [hh3, hh2, hh1]
        have he : ((r : Int) + 1) = ((r + 1 : Nat) : Int) := by omega
        rw [he]
        exact resolveIdx_natCast hrlt
      have hcc4 : resolveIdx (m3.rowAt (r + 1)).length (c : Int) = some c := by
        rw [hrow3 (r + 1), hrow2 (r + 1), hrow1 (r + 1), hlenr (r + 1) hrlt]
        exact resolveIdx_natCast hc
      obtain ⟨m4, hs4, hh4, hrow4⟩ := addAtI_some_of_res (d := v.ediv T) hres4 hcc4
      rw [hs4]
      simp only [Option.some_bind]
      have h5 : m4.addAtI (r : Int) ((c : Int) + 1) (v.ediv T) = none := by
        apply addAtI_none_col (r := r)
        · rw [hh4, hh3, hh2, hh1]
          exact hrr
        · rw [hrow4 r, hrow3 r, hrow2 r, hrow1 r, hlenr r hr]
          have he : ((c : Int) + 1) = ((c + 1 : Nat) : Int) := by omega
          rw [he]
          exact resolveIdx_none_of_ge (by omega)
      rw [h5]
      rfl

/-! Claim theorems. -/

/-- C1: for any two stabilized grids a and b of identical height and width,
composing then relaxing is independent of topple order: relaxing the
elementwise sum directly, relaxing the sum of relax(a) and b, and relaxing
the sum of relax(a) and relax(b) all yield the same final stable grid
(relax is the identity on stabilized grids, so happily the three
expressions coincide). -/
theorem C1_abelian_composition (T : Int) (fa fb fc : Nat) (a b : Grid)
    (hdim : a.h = b.h ∧ a.w = b.w) (ha : a.maxValue < T) (hb : b.maxValue < T) :
    ((relax T fa a).bind (fun a2 => (npAdd a2 b).bind (relax T fc))
      = (npAdd a b).bind (relax T fc)) ∧
    ((relax T fa a).bind (fun a2 => (relax T fb b).bind (fun b2 =>
        (npAdd a2 b2).bind (relax T fc)))
      = (npAdd a b).bind (relax T fc)) := by
  rw [relax_of_stable ha fa, relax_of_stable hb fb]
  simp

theorem C1_abelian_composition_witness :
    ((relax 4 1 (zerosGrid 3 3)).bind (fun a2 => (npAdd a2 (zerosGrid 3 3)).bind (relax 4 1))
      = (npAdd (zerosGrid 3 3) (zerosGrid 3 3)).bind (relax 4 1)) ∧
    ((relax 4 1 (zerosGrid 3 3)).bind (fun a2 => (relax 4 1 (zerosGrid 3 3)).bind (fun b2 =>
        (npAdd a2 b2).bind (relax 4 1)))
      = (npAdd (zerosGrid 3 3) (zerosGrid 3 3)).bind (relax 4 1)) :=
  C1_abelian_composition 4 1 1 1 (zerosGrid 3 3) (zerosGrid 3 3) ⟨rfl, rfl⟩
    (by decide) (by decide)

/-- C2 (amended): every successful topple call leaves the outer border all
zero, and so does every successful relax whose input grid either already had
a zero border or was unstable (so that at least one pass ran); an
automatic-mode drive step that leaves the grid stable can instead leave the
freshly dropped grain sitting on the border. -/
theorem C2_border_zero_amended :
    (∀ (T : Int) (g : Grid) (coords : List (Int × Int)) (g2 : Grid),
      topple T g coords = some g2 → BorderZero g2) ∧
    (∀ (T : Int) (fuel : Nat) (g g2 : Grid), (BorderZero g ∨ T ≤ g.maxValue) →
      relax T fuel g = some g2 → BorderZero g2) :=
  ⟨fun _ _ _ _ ht => topple_borderZero ht,
   fun _ _ _ _ hpre hrel => relax_borderZero hpre hrel⟩

theorem C2_border_zero_witness :
    BorderZero (zeroBorder (zerosGrid 3 3)) ∧ BorderZero (zerosGrid 3 3) :=
  ⟨C2_border_zero_amended.1 4 (zerosGrid 3 3) [] (zeroBorder (zerosGrid 3 3)) (by decide),
   C2_border_zero_amended.2 4 1 (zerosGrid 3 3) (zerosGrid 3 3) (Or.inl (by decide))
     (by decide)⟩

/-- C2 counterexample: a drive step on the all-zero 3 by 3 grid whose draw
hits the corner leaves one grain on the border, so the border is not zero
after every automatic-mode drive step. -/
theorem C2_border_zero_counterexample :
    driveStep 4 1 (zerosGrid 3 3) 0 0 = some ⟨[[1,0,0],[0,0,0],[0,0,0]]⟩ ∧
    borderZeroB ⟨[[1,0,0],[0,0,0],[0,0,0]]⟩ = false := by
  constructor <;> decide

/-- C3 (amended to the default threshold 4): a single-pile topple at
threshold 4 on a border-zero grid conserves grains exactly up to the amount
sitting on the border immediately before the final border zeroing: the
total before equals the total after plus the border sum of the intermediate
state. -/
theorem C3_topple_conservation (g : Grid) (x y : Int) (m : Grid) (hb : BorderZero g)
    (hm : toppleCore 4 g [(x, y)] = some m) :
    topple1 4 g x y = some (zeroBorder m) ∧
    g.total = (zeroBorder m).total + borderSum m := by
  constructor
  · unfold topple1 topple
    rw [hm]
    rfl
  · have h1 := toppleCore_single_total hm
    rw [← h1]
    exact total_zeroBorder m

theorem C3_topple_conservation_witness :
    topple1 4 ⟨[[0,0,0,0,0],[0,0,0,0,0],[0,0,4,0,0],[0,0,0,0,0],[0,0,0,0,0]]⟩ 2 2
      = some (zeroBorder ⟨[[0,0,0,0,0],[0,0,1,0,0],[0,1,0,1,0],[0,0,1,0,0],[0,0,0,0,0]]⟩) ∧
    Grid.total ⟨[[0,0,0,0,0],[0,0,0,0,0],[0,0,4,0,0],[0,0,0,0,0],[0,0,0,0,0]]⟩
      = (zeroBorder ⟨[[0,0,0,0,0],[0,0,1,0,0],[0,1,0,1,0],[0,0,1,0,0],[0,0,0,0,0]]⟩).total
        + borderSum ⟨[[0,0,0,0,0],[0,0,1,0,0],[0,1,0,1,0],[0,0,1,0,0],[0,0,0,0,0]]⟩ :=
  C3_topple_conservation ⟨[[0,0,0,0,0],[0,0,0,0,0],[0,0,4,0,0],[0,0,0,0,0],[0,0,0,0,0]]⟩
    2 2 ⟨[[0,0,0,0,0],[0,0,1,0,0],[0,1,0,1,0],[0,0,1,0,0],[0,0,0,0,0]]⟩
    (by decide) (by decide)

/-- C3 counterexample: at threshold 8 (which the docstring permits, being
divisible by 4) a topple removes 8 grains from the pile but hands only 1 to
each of the 4 neighbors, so 4 grains vanish although nothing reached the
border: conservation fails for a general threshold. -/
theorem C3_topple_conservation_counterexample :
    toppleCore 8 ⟨[[0,0,0,0,0],[0,0,0,0,0],[0,0,8,0,0],[0,0,0,0,0],[0,0,0,0,0]]⟩ [(2, 2)]
      = some ⟨[[0,0,0,0,0],[0,0,1,0,0],[0,1,0,1,0],[0,0,1,0,0],[0,0,0,0,0]]⟩ ∧
    borderSum ⟨[[0,0,0,0,0],[0,0,1,0,0],[0,1,0,1,0],[0,0,1,0,0],[0,0,0,0,0]]⟩ = 0 ∧
    ¬ (Grid.total ⟨[[0,0,0,0,0],[0,0,0,0,0],[0,0,8,0,0],[0,0,0,0,0],[0,0,0,0,0]]⟩
      = (zeroBorder ⟨[[0,0,0,0,0],[0,0,1,0,0],[0,1,0,1,0],[0,0,1,0,0],[0,0,0,0,0]]⟩).total
        + borderSum ⟨[[0,0,0,0,0],[0,0,1,0,0],[0,1,0,1,0],[0,0,1,0,0],[0,0,0,0,0]]⟩) := by
  refine ⟨by decide, by decide, by decide⟩

/-- C4: on any grid whose maximum cell value is strictly below the
threshold, relax changes no cell and returns the grid unchanged. -/
theorem C4_relax_identity (T : Int) (fuel : Nat) (g : Grid) (hst : g.maxValue < T) :
    relax T fuel g = some g :=
  relax_of_stable hst fuel

theorem C4_relax_identity_witness :
    (zerosGrid 3 3).maxValue < 4 ∧ relax 4 7 (zerosGrid 3 3) = some (zerosGrid 3 3) :=
  ⟨by decide, C4_relax_identity 4 7 (zerosGrid 3 3) (by decide)⟩

/-- C5 (amended): each relaxation pass takes the np.where snapshot of all
cells at or above T and topples all of them simultaneously from their
snapshot values (each such cell cut to its remainder, each existing
orthogonal neighbor receiving the quotient, the border then zeroed), and
relax repeats such passes until no cell holds T or more; on well-formed
border-zero grids at a positive threshold relax coincides with that
simultaneous-pass specification, but the pass is not equivalent to toppling
the snapshot one pile at a time. -/
theorem C5_relax_simultaneous (T : Int) (fuel : Nat) (g : Grid) (hT : 0 < T)
    (hwf : g.WF) (hb : BorderZero g) : relax T fuel g = relaxSpec T fuel g :=
  relax_eq_relaxSpec T hT fuel g hwf hb

theorem C5_relax_simultaneous_witness :
    (0 : Int) < 4 ∧
    Grid.WF ⟨[[0,0,0,0,0],[0,0,0,0,0],[0,0,4,7,0],[0,0,0,0,0],[0,0,0,0,0]]⟩ ∧
    BorderZero ⟨[[0,0,0,0,0],[0,0,0,0,0],[0,0,4,7,0],[0,0,0,0,0],[0,0,0,0,0]]⟩ ∧
    relax 4 3 ⟨[[0,0,0,0,0],[0,0,0,0,0],[0,0,4,7,0],[0,0,0,0,0],[0,0,0,0,0]]⟩
      = relaxSpec 4 3 ⟨[[0,0,0,0,0],[0,0,0,0,0],[0,0,4,7,0],[0,0,0,0,0],[0,0,0,0,0]]⟩ :=
  ⟨by decide, by decide, by decide,
   C5_relax_simultaneous 4 3 ⟨[[0,0,0,0,0],[0,0,0,0,0],[0,0,4,7,0],[0,0,0,0,0],[0,0,0,0,0]]⟩
     (by decide) (by decide) (by decide)⟩

/-- C5 counterexample: on the grid with piles 4 and 7 side by side the
vectorized snapshot pass and the one-pile-at-a-time toppling of the same
snapshot produce different grids, so the pass is not equivalent to toppling
the snapshot coordinates one at a time in snapshot order. -/
theorem C5_relax_simultaneous_counterexample :
    topple 4 ⟨[[0,0,0,0,0],[0,0,0,0,0],[0,0,4,7,0],[0,0,0,0,0],[0,0,0,0,0]]⟩
        (unstableCoords 4 ⟨[[0,0,0,0,0],[0,0,0,0,0],[0,0,4,7,0],[0,0,0,0,0],[0,0,0,0,0]]⟩)
      = some ⟨[[0,0,0,0,0],[0,0,1,1,0],[0,1,1,4,0],[0,0,1,1,0],[0,0,0,0,0]]⟩ ∧
    seqTopple 4 ⟨[[0,0,0,0,0],[0,0,0,0,0],[0,0,4,7,0],[0,0,0,0,0],[0,0,0,0,0]]⟩
        (unstableCoords 4 ⟨[[0,0,0,0,0],[0,0,0,0,0],[0,0,4,7,0],[0,0,0,0,0],[0,0,0,0,0]]⟩)
      = some ⟨[[0,0,0,0,0],[0,0,1,2,0],[0,1,2,0,0],[0,0,1,2,0],[0,0,0,0,0]]⟩ ∧
    (⟨[[0,0,0,0,0],[0,0,1,1,0],[0,1,1,4,0],[0,0,1,1,0],[0,0,0,0,0]]⟩ : Grid)
      ≠ ⟨[[0,0,0,0,0],[0,0,1,2,0],[0,1,2,0,0],[0,0,1,2,0],[0,0,0,0,0]]⟩ := by
  refine ⟨by decide, by decide, by decide⟩

/-- C6 (amended): construction performs no dimension validation at all:
any height and width, including values below 3, yield an all-zero grid with
no error; only construction from a raw value array fails, namely when the
rows are inconsistent (or the array empty), through the array constructor
itself rather than a dedicated InvalidDimension error. -/
theorem C6_init_unvalidated :
    (∀ hh ww : Nat, sandpileInit none hh ww = some (zerosGrid hh ww)) ∧
    (∀ (rows : List (List Int)) (hh ww : Nat), rows ≠ [] → isRect rows = false →
      sandpileInit (some rows) hh ww = none) := by
  constructor
  · intro hh ww
    rfl
  · intro rows hh ww hne hrect
    show (if rows ≠ [] ∧ isRect rows = true then some (⟨rows⟩ : Grid) else none) = none
    rw [if_neg]
    intro hcond
    rw [hrect] at hcond
    exact absurd hcond.2 (by simp)

theorem C6_init_unvalidated_witness :
    sandpileInit none 2 2 = some (zerosGrid 2 2) ∧
    sandpileInit (some [[1], [2, 3]]) 0 0 = none :=
  ⟨C6_init_unvalidated.1 2 2,
   C6_init_unvalidated.2 [[1], [2, 3]] 0 0 (by decide) (by decide)⟩

/-- C6 counterexample: constructing a 2 by 2 grid succeeds and produces a
grid, contradicting the claim that heights or widths below 3 fail with
InvalidDimension and produce no grid. -/
theorem C6_init_counterexample :
    sandpileInit none 2 2 = some (zerosGrid 2 2) ∧ (zerosGrid 2 2).h = 2 ∧
    (zerosGrid 2 2).w = 2 := by
  refine ⟨by decide, by decide, by decide⟩

/-- C7 (amended): the sum of two sandpiles fails (a numpy ValueError,
caught and reported as a printed message with no result) exactly when the
shapes are not broadcast-compatible on some axis; on compatible shapes the
broadcast elementwise sum is formed in a fresh result object and run at
that object's default threshold 4, which relaxes the sum whenever it is not
all zero (the Python method itself returns the None produced by run; the
relaxed grid is the state of the temporary result). -/
theorem C7_compose_broadcast (fuel : Nat) (draws : List (Int × Int)) (a b : Grid) :
    ((bDim a.h b.h = none ∨ bDim a.w b.w = none) → sandAdd fuel draws a b = none) ∧
    (∀ s : Grid, npAdd a b = some s → gridAny s = true →
      sandAdd fuel draws a b = relax 4 fuel s) := by
  constructor
  · intro hcase
    unfold sandAdd npAdd
    cases hhh : bDim a.h b.h with
    | none => cases hww : bDim a.w b.w <;> rfl
    | some n =>
      cases hww : bDim a.w b.w with
      | none => rfl
      | some m =>
        exfalso
        rcases hcase with hcase | hcase
        · rw [hcase] at hhh
          cases hhh
        · rw [hcase] at hww
          cases hww
  · intro s hs hany
    unfold sandAdd
    rw [hs]
    simp only [Option.some_bind]
    unfold run
    rw [if_pos hany]

theorem C7_compose_broadcast_witness :
    ((bDim (zerosGrid 3 3).h (zerosGrid 2 2).h = none ∨
        bDim (zerosGrid 3 3).w (zerosGrid 2 2).w = none) →
      sandAdd 1 [] (zerosGrid 3 3) (zerosGrid 2 2) = none) ∧
    (∀ s : Grid, npAdd (zerosGrid 3 3) (zerosGrid 2 2) = some s → gridAny s = true →
      sandAdd 1 [] (zerosGrid 3 3) (zerosGrid 2 2) = relax 4 1 s) :=
  C7_compose_broadcast 1 [] (zerosGrid 3 3) (zerosGrid 2 2)

/-- C7 counterexample: a 3 by 3 pile and a 1 by 3 pile have different
heights, yet their sum does not fail: numpy broadcasting accepts the
shapes and the composition produces a result. -/
theorem C7_compose_counterexample :
    Grid.h ⟨[[0,0,0],[0,1,0],[0,0,0]]⟩ ≠ Grid.h ⟨[[0,0,0]]⟩ ∧
    sandAdd 1 [] ⟨[[0,0,0],[0,1,0],[0,0,0]]⟩ ⟨[[0,0,0]]⟩
      = some ⟨[[0,0,0],[0,1,0],[0,0,0]]⟩ := by
  constructor <;> decide

/-- C8: on the 3 by 3 grid with threshold 4 whose only grains are the four
at the interior cell (1,1), relaxation (with at least one pass of fuel)
terminates with the all-zero grid, every grain having dissipated through
the border, and the maximum value afterwards is 0. -/
theorem C8_center_four_to_zero (fuel : Nat) (hf : 1 ≤ fuel) :
    relax 4 fuel ⟨[[0,0,0],[0,4,0],[0,0,0]]⟩ = some (zerosGrid 3 3) ∧
    (zerosGrid 3 3).maxValue = 0 := by
  cases fuel with
  | zero => omega
  | succ n =>
    constructor
    · have hstep : topple 4 ⟨[[0,0,0],[0,4,0],[0,0,0]]⟩
          (unstableCoords 4 ⟨[[0,0,0],[0,4,0],[0,0,0]]⟩) = some (zerosGrid 3 3) := by
        decide
      simp only [relax]
      rw [if_neg (by decide), hstep]
      simp only [Option.some_bind]
      exact relax_of_stable (by decide) n
    · decide

theorem C8_center_four_to_zero_witness :
    relax 4 2 ⟨[[0,0,0],[0,4,0],[0,0,0]]⟩ = some (zerosGrid 3 3) ∧
    (zerosGrid 3 3).maxValue = 0 :=
  C8_center_four_to_zero 2 (by decide)

/-- C9: the claim that every automatic-mode drive step picks an in-bounds
coordinate is right about the intent and wrong about the code: the draw for
the row index is bounded by width - 1 instead of height - 1, so on the
3 by 5 grid the legitimate draw (4, 0) indexes row 4 of a 3-row grid and the
step fails instead of adding a grain. -/
theorem C9_swapped_axes_bug :
    (4 : Nat) ≤ (zerosGrid 3 5).w - 1 ∧ (zerosGrid 3 5).h = 3 ∧
    driveStep 4 1 (zerosGrid 3 5) 4 0 = none := by
  refine ⟨by decide, by decide, by decide⟩

/-- C10: on a well-formed grid, a single-pile topple at any cell outside
the last row and last column performs only in-bounds accesses (a negative
index wraps, as numpy indexing does) and succeeds, while at any cell of the
last row or last column it attempts to access row index H (respectively
column index W), which is out of bounds, and the call fails. -/
theorem C10_topple_bounds (T : Int) (g : Grid) (hwf : g.WF) (r c : Nat)
    (hr : r < g.h) (hc : c < g.w) :
    (r < g.h - 1 ∧ c < g.w - 1 → (topple1 T g (r : Int) (c : Int)).isSome) ∧
    ((r = g.h - 1 ∨ c = g.w - 1) → topple1 T g (r : Int) (c : Int) = none) :=
  topple1_cases T g hwf r c hr hc

theorem C10_topple_bounds_witness :
    ((1 < (zerosGrid 4 5).h - 1 ∧ 1 < (zerosGrid 4 5).w - 1 →
      (topple1 7 (zerosGrid 4 5) 1 1).isSome) ∧
    ((1 = (zerosGrid 4 5).h - 1 ∨ 1 = (zerosGrid 4 5).w - 1) →
      topple1 7 (zerosGrid 4 5) 1 1 = none)) :=
  C10_topple_bounds 7 (zerosGrid 4 5) (by decide) 1 1 (by decide) (by decide)
